import Mathlib

/-!
Verification development for the massonskyi/http-rtsp-server repository
(an RTSP-to-HLS streaming server written in Go).

The development shallowly embeds the parts of the source that the checked
properties are about:

* `internal/merkle` (tree.go, proof.go): the hash tree, inclusion-proof
  generation and verification (SHA-256 is modelled bit-for-bit below);
* `internal/protocol` (rtsp.go): the `ProcessStream` pipeline, with every
  external effect (URL parse, DNS, ffmpeg/ffprobe runs, database driver)
  represented by an explicit `World` record of outcomes;
* `internal/stream` (manager.go): `StartStream` / `StopStream` over an
  association-list model of the `streams` map;
* `internal/storage` (storage.go): the SQL statements modelled as pure
  operations on list-valued tables (`ON CONFLICT` semantics included);
* `internal/api` (handlers.go): the session-id synthesis of
  `StartStreamHandler` and the seek-rewrite loop of `ArchiveHandler`.

Go byte slices are `List Nat` (each element a byte value), Go `int` results
that are only ever non-negative are `Nat`, timestamps are `Nat`.  Functions
defined by well-founded recursion in Go (halving a level list, 64-byte
chunking) are given explicit fuel so that every definition reduces inside
the kernel.
-/

/-- Byte sequences: Go `[]byte` as a list of byte values. -/
abbrev Bytes := List Nat

namespace Sha256

/-- Truncation to a 32-bit machine word, Go `uint32` wrap-around. -/
def w32 (x : Nat) : Nat := x % 4294967296

/-- 32-bit right rotation. -/
def rotr (n x : Nat) : Nat := w32 ((x >>> n) ||| (x <<< (32 - n)))

/-- 32-bit bitwise complement. -/
def bnot (x : Nat) : Nat := 4294967295 ^^^ x

/-- SHA-256 `Ch` function. -/
def ch (x y z : Nat) : Nat := (x &&& y) ^^^ (bnot x &&& z)

/-- SHA-256 `Maj` function. -/
def maj (x y z : Nat) : Nat := (x &&& y) ^^^ (x &&& z) ^^^ (y &&& z)

/-- SHA-256 big sigma 0. -/
def bsig0 (x : Nat) : Nat := rotr 2 x ^^^ rotr 13 x ^^^ rotr 22 x

/-- SHA-256 big sigma 1. -/
def bsig1 (x : Nat) : Nat := rotr 6 x ^^^ rotr 11 x ^^^ rotr 25 x

/-- SHA-256 small sigma 0. -/
def ssig0 (x : Nat) : Nat := rotr 7 x ^^^ rotr 18 x ^^^ (x >>> 3)

/-- SHA-256 small sigma 1. -/
def ssig1 (x : Nat) : Nat := rotr 17 x ^^^ rotr 19 x ^^^ (x >>> 10)

/-- The 64 round constants (FIPS 180-4, written here as decimal literals). -/
def K : List Nat :=
  [1116352408, 1899447441, 3049323471, 3921009573, 961987163, 1508970993,
   2453635748, 2870763221, 3624381080, 310598401, 607225278, 1426881987,
   1925078388, 2162078206, 2614888103, 3248222580, 3835390401, 4022224774,
   264347078, 604807628, 770255983, 1249150122, 1555081692, 1996064986,
   2554220882, 2821834349, 2952996808, 3210313671, 3336571891, 3584528711,
   113926993, 338241895, 666307205, 773529912, 1294757372, 1396182291,
   1695183700, 1986661051, 2177026350, 2456956037, 2730485921, 2820302411,
   3259730800, 3345764771, 3516065817, 3600352804, 4094571909, 275423344,
   430227734, 506948616, 659060556, 883997877, 958139571, 1322822218,
   1537002063, 1747873779, 1955562222, 2024104815, 2227730452, 2361852424,
   2428436474, 2756734187, 3204031479, 3329325298]

/-- Initial hash state (FIPS 180-4, written here as decimal literals). -/
def H0 : List Nat :=
  [1779033703, 3144134277, 1013904242, 2773480762,
   1359893119, 2600822924, 528734635, 1541459225]

/-- Big-endian bytes of `x`, width `n` bytes. -/
def beBytes : Nat → Nat → Bytes
  | 0, _ => []
  | n + 1, x => beBytes n (x / 256) ++ [x % 256]

/-- Group a byte list into big-endian 32-bit words (four bytes each). -/
def toWords : Bytes → List Nat
  | b0 :: b1 :: b2 :: b3 :: rest => (((b0 * 256 + b1) * 256 + b2) * 256 + b3) :: toWords rest
  | _ => []

/-- Extend the 16-word message schedule by `k` further words. -/
def extendSchedule : List Nat → Nat → List Nat
  | ws, 0 => ws
  | ws, k + 1 =>
    let n := ws.length
    let nw := w32 (ssig1 (ws.getD (n - 2) 0) + ws.getD (n - 7) 0 +
                   ssig0 (ws.getD (n - 15) 0) + ws.getD (n - 16) 0)
    extendSchedule (ws ++ [nw]) k

/-- One compression round: state is the eight working variables a..h. -/
def round (st : List Nat) (k w : Nat) : List Nat :=
  match st with
  | [a, b, c, d, e, f, g, h] =>
    let t1 := w32 (h + bsig1 e + ch e f g + k + w)
    let t2 := w32 (bsig0 a + maj a b c)
    [w32 (t1 + t2), a, b, c, w32 (d + t1), e, f, g]
  | st => st

/-- Compress one 64-byte block into the running state. -/
def compressBlock (st : List Nat) (block : Bytes) : List Nat :=
  let ws := extendSchedule (toWords block) 48
  let st1 := (K.zip ws).foldl (fun s kw => round s kw.1 kw.2) st
  List.zipWith (fun x y => w32 (x + y)) st st1

/-- SHA-256 padding: append 0x80, zeros to 56 mod 64, then the 64-bit
big-endian bit length. -/
def pad (msg : Bytes) : Bytes :=
  let padZeros := (55 + 64 - msg.length % 64) % 64
  msg ++ [0x80] ++ List.replicate padZeros 0 ++ beBytes 8 (msg.length * 8)

/-- Split a byte list into 64-byte chunks; `fuel` bounds the number of
chunks (the padded length divided by 64 always suffices). -/
def chunks64Aux : Nat → Bytes → List Bytes
  | 0, _ => []
  | _, [] => []
  | f + 1, b => b.take 64 :: chunks64Aux f (b.drop 64)

/-- Split a byte list into 64-byte chunks. -/
def chunks64 (b : Bytes) : List Bytes := chunks64Aux b.length b

end Sha256

/-- SHA-256 of a byte sequence, modelling Go `crypto/sha256.Sum256`. -/
def sha256 (msg : Bytes) : Bytes :=
  ((Sha256.chunks64 (Sha256.pad msg)).foldl Sha256.compressBlock Sha256.H0).map (Sha256.beBytes 4) |>.flatten

/-- Lowercase hexadecimal digit characters. -/
def hexDigit (n : Nat) : Char :=
  (("0123456789abcdef".toList).getD n '0')

/-- Lowercase hex encoding of a byte sequence (Go `encoding/hex`). -/
def hexEncode : Bytes → String
  | [] => ""
  | b :: rest => String.mk [hexDigit (b / 16), hexDigit (b % 16)] ++ hexEncode rest

/-- The standard base64 alphabet (Go `encoding/base64.StdEncoding`). -/
def b64Digit (n : Nat) : Char :=
  (("ABCDEFGHIJKLMNOPQRSTUVWXYZabcdefghijklmnopqrstuvwxyz0123456789+/".toList).getD n 'A')

/-- Standard base64 encoding with padding, as Go `json.Marshal` applies to
a `[]byte` value. -/
def base64Encode : Bytes → String
  | [] => ""
  | [a] =>
    String.mk [b64Digit (a / 4), b64Digit (a % 4 * 16), '=', '=']
  | [a, b] =>
    String.mk [b64Digit (a / 4), b64Digit (a % 4 * 16 + b / 16), b64Digit (b % 16 * 4), '=']
  | a :: b :: c :: rest =>
    String.mk [b64Digit (a / 4), b64Digit (a % 4 * 16 + b / 16),
               b64Digit (b % 16 * 4 + c / 64), b64Digit (c % 64)] ++ base64Encode rest

namespace Merkle

/-!
Embedding of `internal/merkle` (tree.go, proof.go).  A Go `*Node` carries
`Hash`, `Left`, `Right`, `Data` and a `Parent` back-pointer; the functional
embedding keeps the downward structure only.  `GenerateProof` walks the
`Parent` pointers from `t.Leaves[i]` to the root, recording at each parent
the sibling hash and whether that sibling is the left child; `pathSteps`
below computes exactly that list (leaf-to-root order) by descending from
the root to the i-th leaf and collecting the sibling of every ancestor
edge.  A node carried unchanged to the next level (odd level count) is the
same object in Go, so it produces no ancestor edge and no step — in the
functional tree such a node simply has no extra `parent` layer.

The tree is parameterised by the hash function `H`; the source always
instantiates it with SHA-256 (`sha256` above).
-/

/-- One node of the hash tree (tree.go / node.go `Node`, minus the
`Parent` back-pointer, which the embedding recomputes structurally). -/
inductive Node where
  | leaf (hash : Bytes) (data : Bytes)
  | parent (hash : Bytes) (left right : Node)
deriving DecidableEq, Repr, Inhabited

/-- The `Hash` field of a node. -/
def Node.hash : Node → Bytes
  | .leaf h _ => h
  | .parent h _ _ => h

/-- node.go `NewLeafNode`: hash the data block. -/
def NewLeafNode (H : Bytes → Bytes) (data : Bytes) : Node :=
  .leaf (H data) data

/-- node.go `NewParentNode`: hash of the two children's hashes
concatenated. -/
def NewParentNode (H : Bytes → Bytes) (l r : Node) : Node :=
  .parent (H (l.hash ++ r.hash)) l r

/-- One pass of tree.go `buildTree`'s pairing loop: adjacent nodes are
paired left-to-right; an unpaired last node is appended unchanged. -/
def pairUp (H : Bytes → Bytes) : List Node → List Node
  | [] => []
  | [n] => [n]
  | a :: b :: rest => NewParentNode H a b :: pairUp H rest

/-- tree.go `buildTree`, with explicit fuel standing in for the recursion
on the strictly shrinking level list (fuel `ns.length` always suffices). -/
def buildTreeAux (H : Bytes → Bytes) : Nat → List Node → Option Node
  | _, [] => none
  | _, [n] => some n
  | 0, _ :: _ :: _ => none
  | f + 1, a :: b :: rest => buildTreeAux H f (pairUp H (a :: b :: rest))

/-- tree.go `buildTree` (Go recurses until a single node remains; an empty
list is rejected upstream by `NewMerkleTree`). -/
def buildTree (H : Bytes → Bytes) (ns : List Node) : Option Node :=
  buildTreeAux H ns.length ns

/-- tree.go `MerkleTree`: the root and the leaf nodes in block order. -/
structure MerkleTree where
  root : Node
  leaves : List Node
deriving DecidableEq, Repr

/-- tree.go `NewMerkleTree`: errors on an empty block list, otherwise
hashes each block into a leaf and builds the tree bottom-up. -/
def NewMerkleTree (H : Bytes → Bytes) (dataBlocks : List Bytes) : Option MerkleTree :=
  if dataBlocks.isEmpty then none
  else
    let leaves := dataBlocks.map (NewLeafNode H)
    match buildTree H leaves with
    | none => none
    | some root => some { root := root, leaves := leaves }

/-- proof.go `ProofStep`: a sibling hash and whether it sits to the left. -/
structure ProofStep where
  hash : Bytes
  isLeft : Bool
deriving DecidableEq, Repr

/-- proof.go `Proof`. -/
structure Proof where
  leafHash : Bytes
  path : List ProofStep
deriving DecidableEq, Repr

/-- Number of leaves below a node. -/
def Node.leafCount : Node → Nat
  | .leaf _ _ => 1
  | .parent _ l r => l.leafCount + r.leafCount

/-- Leaf hashes below a node, left to right. -/
def Node.leafHashes : Node → List Bytes
  | .leaf h _ => [h]
  | .parent _ l r => l.leafHashes ++ r.leafHashes

/-- The proof path for the i-th leaf, in leaf-to-root order: the sibling
recorded at each ancestor edge, exactly as proof.go's `Parent`-pointer walk
collects it (`IsLeft` is true when the sibling is the left child). -/
def pathSteps : Node → Nat → List ProofStep
  | .leaf _ _, _ => []
  | .parent _ l r, i =>
    if i < l.leafCount then
      pathSteps l i ++ [⟨r.hash, false⟩]
    else
      pathSteps r (i - l.leafCount) ++ [⟨l.hash, true⟩]

/-- proof.go `GenerateProof`: rejects an out-of-range index (the Go
negative-index guard is subsumed by `Nat`), otherwise pairs the leaf hash
with the sibling path. -/
def GenerateProof (t : MerkleTree) (leafIndex : Nat) : Option Proof :=
  if leafIndex < t.leaves.length then
    some { leafHash := (t.leaves.getD leafIndex default).hash
           path := pathSteps t.root leafIndex }
  else
    none

/-- One fold step of proof.go `VerifyProof`: a left sibling is prepended,
a right sibling appended, and the pair re-hashed. -/
def foldStep (H : Bytes → Bytes) (cur : Bytes) (s : ProofStep) : Bytes :=
  if s.isLeft then H (s.hash ++ cur) else H (cur ++ s.hash)

/-- proof.go `VerifyProof`: fold the path from the leaf hash and compare
with the expected root hash (`bytes.Equal`). -/
def VerifyProof (H : Bytes → Bytes) (p : Proof) (rootHash : Bytes) : Bool :=
  decide (p.path.foldl (foldStep H) p.leafHash = rootHash)

end Merkle

namespace Merkle

/-- The pairing pass halves a level, rounding up. -/
theorem pairUp_length (H : Bytes → Bytes) : ∀ l : List Node, (pairUp H l).length = (l.length + 1) / 2
  | [] => rfl
  | [n] => by simp [pairUp]
  | _ :: _ :: rest => by
    simp [pairUp, pairUp_length H rest]
    omega

/-- The fuel argument of `buildTreeAux` is irrelevant once it dominates the
level length. -/
theorem buildTreeAux_congr (H : Bytes → Bytes) :
    ∀ f g (l : List Node), l.length ≤ f → l.length ≤ g →
      buildTreeAux H f l = buildTreeAux H g l := by
  intro f
  induction f with
  | zero =>
    intro g l hf _
    have : l = [] := List.eq_nil_of_length_eq_zero (Nat.le_zero.mp hf)
    subst this
    cases g <;> rfl
  | succ f ih =>
    intro g l hf hg
    match l, g with
    | [], g => cases g <;> rfl
    | [n], g => cases g <;> rfl
    | a :: b :: rest, 0 => simp at hg
    | a :: b :: rest, g + 1 =>
      show buildTreeAux H f (pairUp H (a :: b :: rest)) =
        buildTreeAux H g (pairUp H (a :: b :: rest))
      apply ih
      · simp only [pairUp_length]
        simp at hf ⊢
        omega
      · simp only [pairUp_length]
        simp at hg ⊢
        omega

/-- One unfolding of the level recursion of `buildTree`. -/
theorem buildTree_step (H : Bytes → Bytes) (l : List Node) (h : 2 ≤ l.length) :
    buildTree H l = buildTree H (pairUp H l) := by
  match l, h with
  | a :: b :: rest, _ =>
    show buildTreeAux H (rest.length + 2) (a :: b :: rest) = _
    show buildTreeAux H (rest.length + 1) (pairUp H (a :: b :: rest)) = _
    apply buildTreeAux_congr
    · simp [pairUp_length]
      omega
    · simp

/-- Induction along the level structure of `buildTree`. -/
theorem level_induction (H : Bytes → Bytes) (P : List Node → Prop) (h0 : P [])
    (h1 : ∀ n, P [n])
    (hstep : ∀ a b rest, P (pairUp H (a :: b :: rest)) → P (a :: b :: rest)) :
    ∀ l, P l := by
  intro l
  generalize hn : l.length = n
  induction n using Nat.strong_induction_on generalizing l with
  | _ n ih =>
    match l, hn with
    | [], _ => exact h0
    | [x], _ => exact h1 x
    | a :: b :: rest, hn =>
      apply hstep
      apply ih (pairUp H (a :: b :: rest)).length _ _ rfl
      subst hn
      simp [pairUp_length]
      omega

/-- `buildTree` succeeds on every non-empty level list. -/
theorem buildTree_some (H : Bytes → Bytes) :
    ∀ l : List Node, l ≠ [] → ∃ t, buildTree H l = some t := by
  apply level_induction H (fun l => l ≠ [] → ∃ t, buildTree H l = some t)
  · intro h
    exact absurd rfl h
  · intro n _
    exact ⟨n, rfl⟩
  · intro a b rest ih _
    rw [buildTree_step H _ (by simp)]
    apply ih
    have := pairUp_length H (a :: b :: rest)
    intro hnil
    rw [hnil] at this
    simp at this
    omega

/-- Hash-consistency of a node: every parent hash is the hash of its
children's concatenated hashes.  `NewParentNode` establishes it. -/
def Node.wf (H : Bytes → Bytes) : Node → Prop
  | .leaf _ _ => True
  | .parent h l r => h = H (l.hash ++ r.hash) ∧ l.wf H ∧ r.wf H

/-- Pairing preserves hash-consistency. -/
theorem pairUp_wf (H : Bytes → Bytes) :
    ∀ l : List Node, (∀ x ∈ l, x.wf H) → ∀ x ∈ pairUp H l, x.wf H
  | [], _ => by simp [pairUp]
  | [n], h => by simpa [pairUp] using h
  | a :: b :: rest, h => by
    intro x hx
    simp only [pairUp, List.mem_cons] at hx
    rcases hx with rfl | hx
    · exact ⟨rfl, h a (by simp), h b (by simp)⟩
    · exact pairUp_wf H rest (fun y hy => h y (by simp [hy])) x hx

/-- The built tree is hash-consistent when every input node is. -/
theorem buildTree_wf (H : Bytes → Bytes) :
    ∀ l : List Node, (∀ x ∈ l, x.wf H) → ∀ t, buildTree H l = some t → t.wf H := by
  apply level_induction H
    (fun l => (∀ x ∈ l, x.wf H) → ∀ t, buildTree H l = some t → t.wf H)
  · intro _ t ht
    simp [buildTree, buildTreeAux] at ht
  · intro n h t ht
    have : n = t := by simpa [buildTree, buildTreeAux] using ht
    exact this ▸ h n (by simp)
  · intro a b rest ih h t ht
    rw [buildTree_step H _ (by simp)] at ht
    exact ih (pairUp_wf H _ h) t ht

/-- All leaf hashes of a level list, flattened left to right. -/
def levelLeafHashes (l : List Node) : List Bytes :=
  (l.map Node.leafHashes).flatten

/-- Pairing does not change the flattened leaf hashes. -/
theorem pairUp_leafHashes (H : Bytes → Bytes) :
    ∀ l : List Node, levelLeafHashes (pairUp H l) = levelLeafHashes l
  | [] => rfl
  | [_] => rfl
  | a :: b :: rest => by
    simp [pairUp, levelLeafHashes, NewParentNode, Node.leafHashes] at *
    simpa [List.append_assoc] using pairUp_leafHashes H rest

/-- The built tree's leaf hashes are the flattened input leaf hashes. -/
theorem buildTree_leafHashes (H : Bytes → Bytes) :
    ∀ l : List Node, ∀ t, buildTree H l = some t → t.leafHashes = levelLeafHashes l := by
  apply level_induction H
    (fun l => ∀ t, buildTree H l = some t → t.leafHashes = levelLeafHashes l)
  · intro t ht
    simp [buildTree, buildTreeAux] at ht
  · intro n t ht
    have : n = t := by simpa [buildTree, buildTreeAux] using ht
    subst this
    simp [levelLeafHashes]
  · intro a b rest ih t ht
    rw [buildTree_step H _ (by simp)] at ht
    rw [ih t ht, pairUp_leafHashes]

/-- Leaf count equals the number of leaf hashes. -/
theorem leafCount_eq_length (t : Node) : t.leafCount = t.leafHashes.length := by
  induction t with
  | leaf h d => rfl
  | parent h l r ihl ihr => simp [Node.leafCount, Node.leafHashes, ihl, ihr]

/-- Every node has at least one leaf. -/
theorem leafCount_pos (t : Node) : 1 ≤ t.leafCount := by
  induction t with
  | leaf h d => simp [Node.leafCount]
  | parent h l r ihl ihr => simp [Node.leafCount]; omega

/-- Folding the proof path from the i-th leaf hash of a hash-consistent
node reconstructs that node's hash. -/
theorem foldl_pathSteps (H : Bytes → Bytes) :
    ∀ t : Node, t.wf H → ∀ i, i < t.leafCount →
      (pathSteps t i).foldl (foldStep H) (t.leafHashes.getD i []) = t.hash
  | .leaf h d, _, i, hi => by
    have : i = 0 := by simpa [Node.leafCount] using hi
    subst this
    simp [pathSteps, Node.leafHashes, Node.hash]
  | .parent h l r, hwf, i, hi => by
    obtain ⟨hh, hl, hr⟩ := hwf
    by_cases hcase : i < l.leafCount
    · have hlen : i < l.leafHashes.length := leafCount_eq_length l ▸ hcase
      simp only [pathSteps, hcase, if_pos, Node.leafHashes, List.foldl_append,
        List.getD_append _ _ _ _ hlen]
      rw [foldl_pathSteps H l hl i hcase]
      simp [foldStep, Node.hash, hh]
    · have hlen : l.leafHashes.length ≤ i := by
        rw [← leafCount_eq_length]
        omega
      have hi' : i - l.leafCount < r.leafCount := by
        simp [Node.leafCount] at hi
        omega
      simp only [pathSteps, hcase, if_neg, Node.leafHashes, List.foldl_append,
        not_false_iff, List.getD_append_right _ _ _ _ hlen]
      rw [leafCount_eq_length] at hi' ⊢
      rw [foldl_pathSteps H r hr _ (by rw [leafCount_eq_length] at hi' ⊢; exact hi')]
      simp [foldStep, Node.hash, hh]

/-- Flattening singleton leaf-hash lists recovers the block hashes. -/
theorem levelLeafHashes_leaves (H : Bytes → Bytes) :
    ∀ blocks : List Bytes, levelLeafHashes (blocks.map (NewLeafNode H)) = blocks.map H
  | [] => rfl
  | b :: rest => by
    show Node.leafHashes (NewLeafNode H b) ++ levelLeafHashes (rest.map (NewLeafNode H)) =
      H b :: rest.map H
    rw [levelLeafHashes_leaves H rest]
    rfl

/-- `NewMerkleTree` on a non-empty block list: the tree exists, its leaves
are the hashed blocks, and the root is hash-consistent. -/
theorem NewMerkleTree_spec (H : Bytes → Bytes) (blocks : List Bytes) (hne : blocks ≠ []) :
    ∃ t, NewMerkleTree H blocks = some t ∧ t.leaves = blocks.map (NewLeafNode H) ∧
      t.root.wf H ∧ t.root.leafHashes = blocks.map H ∧ t.root.leafCount = blocks.length ∧
      buildTree H (blocks.map (NewLeafNode H)) = some t.root := by
  obtain ⟨root, hroot⟩ := buildTree_some H (blocks.map (NewLeafNode H)) (by simpa using hne)
  refine ⟨{ root := root, leaves := blocks.map (NewLeafNode H) }, ?_, rfl, ?_, ?_, ?_, hroot⟩
  · simp [NewMerkleTree, List.isEmpty_iff, hne, hroot]
  · exact buildTree_wf H _ (by intro x hx; simp at hx; obtain ⟨b, _, rfl⟩ := hx; trivial) root hroot
  · rw [buildTree_leafHashes H _ root hroot, levelLeafHashes_leaves]
  · rw [leafCount_eq_length, buildTree_leafHashes H _ root hroot, levelLeafHashes_leaves]
    simp

end Merkle

namespace Merkle

/-- Height of a node (longest chain of child edges). -/
def Node.height : Node → Nat
  | .leaf _ _ => 0
  | .parent _ l _r => 1 + max l.height _r.height

/-- Depth along the leftmost spine. -/
def Node.leftDepth : Node → Nat
  | .leaf _ _ => 0
  | .parent _ l _ => 1 + l.leftDepth

/-- Depth along the rightmost spine. -/
def Node.rightDepth : Node → Nat
  | .leaf _ _ => 0
  | .parent _ _ r => 1 + r.rightDepth

/-- Last node of a level list (`d` for the empty list). -/
def lastNode (d : Node) : List Node → Node
  | [] => d
  | [n] => n
  | _ :: b :: rest => lastNode d (b :: rest)

/-- Longest proof path over all leaves of the tree. -/
def maxProofLen (t : MerkleTree) : Nat :=
  ((List.range t.leaves.length).map (fun i => (pathSteps t.root i).length)).foldr max 0

/-- A proof path never exceeds the height of the tree. -/
theorem pathSteps_length_le_height : ∀ (t : Node) (i : Nat), (pathSteps t i).length ≤ t.height
  | .leaf _ _, _ => by simp [pathSteps, Node.height]
  | .parent h l r, i => by
    by_cases hc : i < l.leafCount <;>
      simp only [pathSteps, hc, if_pos, if_neg, not_false_iff, List.length_append,
        List.length_cons, List.length_nil, Node.height] <;>
      [have := pathSteps_length_le_height l i; have := pathSteps_length_le_height r (i - l.leafCount)] <;>
      omega

/-- The proof path of leaf 0 has exactly the left-spine length. -/
theorem pathSteps_zero_length : ∀ t : Node, (pathSteps t 0).length = t.leftDepth
  | .leaf _ _ => rfl
  | .parent h l r => by
    have h0 : 0 < l.leafCount := leafCount_pos l
    simp only [pathSteps, Node.leftDepth]
    rw [if_pos h0]
    simp only [List.length_append, List.length_cons, List.length_nil,
      pathSteps_zero_length l]
    omega

/-- The proof path of the last leaf has exactly the right-spine length. -/
theorem pathSteps_last_length : ∀ t : Node, (pathSteps t (t.leafCount - 1)).length = t.rightDepth
  | .leaf _ _ => rfl
  | .parent h l r => by
    have hl := leafCount_pos l
    have hr := leafCount_pos r
    have hge : ¬ (l.leafCount + r.leafCount - 1 < l.leafCount) := by omega
    have harg : l.leafCount + r.leafCount - 1 - l.leafCount = r.leafCount - 1 := by omega
    simp only [Node.leafCount, pathSteps, hge, if_neg, not_false_iff, harg,
      List.length_append, List.length_cons, List.length_nil, Node.rightDepth,
      pathSteps_last_length r]
    omega

/-- Every member of a list of naturals is below its `foldr max 0`. -/
theorem le_foldr_max : ∀ (l : List Nat) (a : Nat), a ∈ l → a ≤ l.foldr max 0
  | [], a, ha => by simp at ha
  | x :: rest, a, ha => by
    simp only [List.mem_cons] at ha
    simp only [List.foldr_cons]
    rcases ha with rfl | ha
    · exact Nat.le_max_left _ _
    · exact le_trans (le_foldr_max rest a ha) (Nat.le_max_right _ _)

/-- Every output node of a pairing pass is a fresh parent of two input
nodes or an input node carried unchanged. -/
theorem pairUp_mem (H : Bytes → Bytes) :
    ∀ l : List Node, ∀ x ∈ pairUp H l,
      (∃ u ∈ l, ∃ v ∈ l, x = NewParentNode H u v) ∨ x ∈ l
  | [], x, hx => by simp [pairUp] at hx
  | [n], x, hx => by simpa [pairUp] using Or.inr hx
  | a :: b :: rest, x, hx => by
    simp only [pairUp, List.mem_cons] at hx
    rcases hx with rfl | hx
    · exact Or.inl ⟨a, by simp, b, by simp, rfl⟩
    · rcases pairUp_mem H rest x hx with ⟨u, hu, v, hv, rfl⟩ | hmem
      · exact Or.inl ⟨u, by simp [hu], v, by simp [hv], rfl⟩
      · exact Or.inr (by simp [hmem])

/-- `pairUp` never empties a non-empty level. -/
theorem pairUp_ne_nil (H : Bytes → Bytes) (l : List Node) (h : l ≠ []) :
    pairUp H l ≠ [] := by
  intro he
  have := pairUp_length H l
  rw [he] at this
  simp at this
  have : l.length = 0 := by omega
  exact h (List.eq_nil_of_length_eq_zero this)

/-- `lastNode` skips the head when the tail is non-empty. -/
theorem lastNode_cons_of_ne (d x : Node) (xs : List Node) (h : xs ≠ []) :
    lastNode d (x :: xs) = lastNode d xs := by
  cases xs with
  | nil => exact absurd rfl h
  | cons b rest => rfl

/-- The last node of a non-empty list is a member. -/
theorem lastNode_mem (d : Node) : ∀ l : List Node, l ≠ [] → lastNode d l ∈ l
  | [], h => absurd rfl h
  | [n], _ => by simp [lastNode]
  | a :: b :: rest, _ =>
    List.mem_cons_of_mem a (lastNode_mem d (b :: rest) (by simp))

/-- On a level of odd length the carried node stays last. -/
theorem pairUp_lastNode_odd (H : Bytes → Bytes) (d : Node) :
    ∀ l : List Node, l.length % 2 = 1 → lastNode d (pairUp H l) = lastNode d l
  | [], h => by simp at h
  | [n], _ => rfl
  | a :: b :: rest, h => by
    have hrest : rest.length % 2 = 1 := by simp at h; omega
    have hne : rest ≠ [] := by
      intro he
      rw [he] at hrest
      simp at hrest
    show lastNode d (NewParentNode H a b :: pairUp H rest) = _
    rw [lastNode_cons_of_ne d _ _ (pairUp_ne_nil H rest hne),
      pairUp_lastNode_odd H d rest hrest,
      lastNode_cons_of_ne d a _ (by simp), lastNode_cons_of_ne d b _ hne]

/-- A pairing pass grows the right-spine depth of the last node by at most
one. -/
theorem pairUp_lastNode_rightDepth (H : Bytes → Bytes) (d : Node) :
    ∀ l : List Node,
      (lastNode d (pairUp H l)).rightDepth ≤ 1 + (lastNode d l).rightDepth
  | [] => by simp [pairUp, lastNode]
  | [n] => by simp [pairUp, lastNode]
  | a :: b :: rest => by
    cases hre : rest with
    | nil =>
      subst hre
      simp [pairUp, lastNode, NewParentNode, Node.rightDepth]
    | cons c rest' =>
      subst hre
      show (lastNode d (NewParentNode H a b :: pairUp H (c :: rest'))).rightDepth ≤ _
      rw [lastNode_cons_of_ne d _ _ (pairUp_ne_nil H _ (by simp)),
        lastNode_cons_of_ne d a _ (by simp), lastNode_cons_of_ne d b _ (by simp)]
      exact pairUp_lastNode_rightDepth H d (c :: rest')

/-- Shape of the built tree: when every node of the level is at most as
high as the head and the head's left spine is full, the root keeps a full
left spine, dominates the head's height, and its right spine is bounded by
the height minus the head's height plus the last node's right spine. -/
theorem buildTree_shape (H : Bytes → Bytes) :
    ∀ l : List Node, ∀ t, buildTree H l = some t →
      (∀ x ∈ l, x.height ≤ (l.headD default).height) →
      ((l.headD default).leftDepth = (l.headD default).height) →
      (t.leftDepth = t.height ∧
       (l.headD default).height ≤ t.height ∧
       t.rightDepth ≤ t.height - (l.headD default).height + (lastNode default l).rightDepth) := by
  apply level_induction H (fun l => ∀ t, buildTree H l = some t →
      (∀ x ∈ l, x.height ≤ (l.headD default).height) →
      ((l.headD default).leftDepth = (l.headD default).height) →
      (t.leftDepth = t.height ∧
       (l.headD default).height ≤ t.height ∧
       t.rightDepth ≤ t.height - (l.headD default).height + (lastNode default l).rightDepth))
  · intro t ht
    simp [buildTree, buildTreeAux] at ht
  · intro n t ht hall hld
    have : n = t := by simpa [buildTree, buildTreeAux] using ht
    subst this
    simp only [List.headD_cons] at hld
    exact ⟨hld, le_refl _, by simp [lastNode]⟩
  · intro a b rest ih t ht hall hld
    rw [buildTree_step H _ (by simp)] at ht
    simp only [List.headD_cons] at hall hld
    have hb : b.height ≤ a.height := hall b (by simp)
    have hhead : (NewParentNode H a b).height = 1 + a.height := by
      simp [NewParentNode, Node.height, Nat.max_eq_left hb]
    have hleft : (NewParentNode H a b).leftDepth = 1 + a.height := by
      simp [NewParentNode, Node.leftDepth, hld]
    have hall' : ∀ x ∈ pairUp H (a :: b :: rest),
        x.height ≤ ((pairUp H (a :: b :: rest)).headD default).height := by
      intro x hx
      show x.height ≤ (NewParentNode H a b).height
      rw [hhead]
      rcases pairUp_mem H _ x hx with ⟨u, hu, v, hv, rfl⟩ | hmem
      · have := hall u hu
        have := hall v hv
        simp [NewParentNode, Node.height]
        omega
      · have := hall x hmem
        omega
    have hld' : ((pairUp H (a :: b :: rest)).headD default).leftDepth =
        ((pairUp H (a :: b :: rest)).headD default).height := by
      show (NewParentNode H a b).leftDepth = (NewParentNode H a b).height
      rw [hhead, hleft]
    obtain ⟨ihA, ihB, ihC⟩ := ih t ht hall' hld'
    refine ⟨ihA, ?_, ?_⟩
    · show a.height ≤ t.height
      rw [show ((pairUp H (a :: b :: rest)).headD default) = NewParentNode H a b from rfl,
        hhead] at ihB
      omega
    · have hrd := pairUp_lastNode_rightDepth H default (a :: b :: rest)
      rw [show ((pairUp H (a :: b :: rest)).headD default) = NewParentNode H a b from rfl,
        hhead] at ihB ihC
      simp only [List.headD_cons]
      omega

end Merkle

namespace Merkle

/-- Round trip: for any hash function, a generated proof for any in-range
leaf verifies against the root hash of the built tree. -/
theorem generate_verify (H : Bytes → Bytes) (blocks : List Bytes) (hne : blocks ≠ [])
    (i : Nat) (hi : i < blocks.length) :
    ∃ t p, NewMerkleTree H blocks = some t ∧ GenerateProof t i = some p ∧
      VerifyProof H p t.root.hash = true := by
  obtain ⟨t, hmk, hleaves, hwf, hlh, hlc, _⟩ := NewMerkleTree_spec H blocks hne
  have hlen : t.leaves.length = blocks.length := by
    rw [hleaves]
    simp
  have hip : i < t.leaves.length := by omega
  refine ⟨t, ⟨(t.leaves.getD i default).hash, pathSteps t.root i⟩, hmk,
    by simp [GenerateProof, hip], ?_⟩
  have hhash : (t.leaves.getD i default).hash = t.root.leafHashes.getD i [] := by
    rw [hleaves, hlh, List.getD_eq_getElem _ _ (by simpa using hi),
      List.getD_eq_getElem _ _ (by simpa using hi)]
    simp [NewLeafNode, Node.hash]
  simp only [VerifyProof]
  rw [hhash, foldl_pathSteps H t.root hwf i (by omega)]
  simp

/-- A node built from a block is a leaf: height zero. -/
theorem NewLeafNode_height (H : Bytes → Bytes) (b : Bytes) :
    (NewLeafNode H b).height = 0 := rfl

/-- For an odd number of leaves (at least three), the proof of the last
(unpaired) leaf is strictly shorter than the longest proof: the leaf is
carried past the first level without contributing a step, while leaf 0
collects a step at every level. -/
theorem odd_last_short (H : Bytes → Bytes) (blocks : List Bytes)
    (hodd : blocks.length % 2 = 1) (h3 : 3 ≤ blocks.length) :
    ∃ t p, NewMerkleTree H blocks = some t ∧
      GenerateProof t (blocks.length - 1) = some p ∧
      VerifyProof H p t.root.hash = true ∧
      p.path.length < maxProofLen t := by
  obtain ⟨t, p, hmk, hgen, hver⟩ := generate_verify H blocks
    (by intro he; rw [he] at h3; simp at h3) (blocks.length - 1) (by omega)
  obtain ⟨t', hmk', hleaves, hwf, hlh, hlc, hroot⟩ := NewMerkleTree_spec H blocks
    (by intro he; rw [he] at h3; simp at h3)
  rw [hmk] at hmk'
  obtain rfl : t = t' := by injection hmk'
  refine ⟨t, p, hmk, hgen, hver, ?_⟩
  -- the leaf nodes all have height, left depth and right depth zero
  have hh0 : ∀ x ∈ blocks.map (NewLeafNode H), x.height = 0 := by
    intro x hx
    simp only [List.mem_map] at hx
    obtain ⟨b, _, rfl⟩ := hx
    rfl
  have hrd0 : ∀ x ∈ blocks.map (NewLeafNode H), x.rightDepth = 0 := by
    intro x hx
    simp only [List.mem_map] at hx
    obtain ⟨b, _, rfl⟩ := hx
    rfl
  match blocks, hodd, h3, hleaves, hlh, hlc, hroot, hh0, hrd0 with
  | b0 :: b1 :: bs, hodd, h3, hleaves, hlh, hlc, hroot, hh0, hrd0 =>
  set l : List Node := (b0 :: b1 :: bs).map (NewLeafNode H) with hl
  have h2 : 2 ≤ l.length := by simp [hl]
  have hstep : buildTree H (pairUp H l) = some t.root := by
    rw [← buildTree_step H l h2]
    exact hroot
  have hpair : pairUp H l =
      NewParentNode H (NewLeafNode H b0) (NewLeafNode H b1) :: pairUp H (bs.map (NewLeafNode H)) := rfl
  have hheadh : ((pairUp H l).headD default).height = 1 := by
    rw [hpair]
    rfl
  have hall' : ∀ x ∈ pairUp H l, x.height ≤ ((pairUp H l).headD default).height := by
    rw [hheadh]
    intro x hx
    rcases pairUp_mem H l x hx with ⟨u, hu, v, hv, rfl⟩ | hmem
    · have h1 := hh0 u hu
      have h2 := hh0 v hv
      simp [NewParentNode, Node.height, h1, h2]
    · rw [hh0 x hmem]
      omega
  have hld' : ((pairUp H l).headD default).leftDepth = ((pairUp H l).headD default).height := by
    rw [hpair]
    rfl
  obtain ⟨hA, hB, hC⟩ := buildTree_shape H (pairUp H l) t.root hstep hall' hld'
  rw [hheadh] at hB hC
  have hlast : lastNode default (pairUp H l) = lastNode default l :=
    pairUp_lastNode_odd H default l (by simpa [hl] using hodd)
  have hlast0 : (lastNode default l).rightDepth = 0 :=
    hrd0 _ (lastNode_mem default l (by simp [hl]))
  rw [hlast, hlast0] at hC
  -- the path of the last leaf is the right spine, leaf 0's is the full left spine
  have hplen : p.path.length = t.root.rightDepth := by
    have hip : (b0 :: b1 :: bs).length - 1 < t.leaves.length := by
      rw [hleaves, hl]
      simp only [List.length_map, List.length_cons]
      omega
    rw [GenerateProof, if_pos hip] at hgen
    have : p.path = pathSteps t.root ((b0 :: b1 :: bs).length - 1) := by
      cases hgen
      rfl
    rw [this, ← hlc]
    exact pathSteps_last_length t.root
  have hzero : (pathSteps t.root 0).length = t.root.height := by
    rw [pathSteps_zero_length, hA]
  have hmax : (pathSteps t.root 0).length ≤ maxProofLen t := by
    apply le_foldr_max
    simp only [List.mem_map]
    refine ⟨0, ?_, rfl⟩
    simp only [List.mem_range]
    rw [hleaves, hl]
    simp
  omega

end Merkle

namespace Database

/-- internal/database `StreamMetadata` (models.go). -/
structure StreamMetadata where
  streamID : String
  streamName : String
  duration : Nat
  resolution : String
  format : String
  createdAt : Nat
  previewPath : String
deriving DecidableEq, Repr

/-- internal/database `ProcessingLog`. -/
structure ProcessingLog where
  id : Nat
  streamID : String
  streamName : String
  logMessage : String
  logLevel : String
  createdAt : Nat
deriving DecidableEq, Repr

/-- internal/database `HLSPlaylist`. -/
structure HLSPlaylist where
  id : Nat
  streamID : String
  streamName : String
  playlistPath : String
  createdAt : Nat
deriving DecidableEq, Repr

/-- internal/database `HLSMerkleProof`. -/
structure HLSMerkleProof where
  id : Nat
  streamID : String
  streamName : String
  segmentIndex : Nat
  proofPath : String
  createdAt : Nat
deriving DecidableEq, Repr

/-- internal/database `Archive`. -/
structure Archive where
  id : Nat
  streamID : String
  streamName : String
  status : String
  duration : Nat
  hlsPlaylistPath : String
  archivedAt : Nat
deriving DecidableEq, Repr

end Database

namespace Storage

/-!
Embedding of `internal/storage` (storage.go).  Each method wraps one SQL
statement against PostgreSQL; the tables are modelled as lists of rows in
insertion order, the serial `id` column by a running counter.  Driver
failures (connection loss etc.) are outside the program, so every write
takes an explicit `ok : Bool` outcome for the driver call; `ok = true`
gives the statement its documented SQL semantics.
-/

/-- The database state: one list per table of the schema. -/
structure DBState where
  streamMetadata : List Database.StreamMetadata
  processingLogs : List Database.ProcessingLog
  hlsPlaylists : List Database.HLSPlaylist
  hlsMerkleProofs : List Database.HLSMerkleProof
  archive : List Database.Archive
  nextID : Nat
deriving DecidableEq, Repr

/-- The empty database. -/
def emptyDB : DBState := ⟨[], [], [], [], [], 1⟩

/-- storage.go `SaveStreamMetadata`: INSERT .. ON CONFLICT (stream_id) DO
UPDATE replaces every mutable column. -/
def SaveStreamMetadata (ok : Bool) (db : DBState) (meta : Database.StreamMetadata) :
    Except String DBState :=
  if !ok then .error "failed to save stream metadata"
  else if db.streamMetadata.any (fun r => r.streamID == meta.streamID) then
    .ok { db with streamMetadata :=
      db.streamMetadata.map (fun r => if r.streamID == meta.streamID then meta else r) }
  else
    .ok { db with streamMetadata := db.streamMetadata ++ [meta] }

/-- storage.go `UpdateStreamMetadata`: UPDATE SET duration, resolution,
format, preview_path WHERE stream_id (an `Exec`, fine with zero rows). -/
def UpdateStreamMetadata (ok : Bool) (db : DBState) (meta : Database.StreamMetadata) :
    Except String DBState :=
  if !ok then .error "failed to update stream metadata"
  else
    .ok { db with streamMetadata := db.streamMetadata.map (fun r =>
      if r.streamID == meta.streamID then
        { r with duration := meta.duration, resolution := meta.resolution,
                 format := meta.format, previewPath := meta.previewPath }
      else r) }

/-- storage.go `SaveProcessingLog`: plain INSERT RETURNING id. -/
def SaveProcessingLog (ok : Bool) (db : DBState) (log : Database.ProcessingLog) :
    Except String DBState :=
  if !ok then .error "failed to save processing log"
  else
    .ok { db with processingLogs := db.processingLogs ++ [{ log with id := db.nextID }],
                  nextID := db.nextID + 1 }

/-- storage.go `SaveHLSPlaylist`: plain INSERT RETURNING id. -/
def SaveHLSPlaylist (ok : Bool) (db : DBState) (p : Database.HLSPlaylist) :
    Except String DBState :=
  if !ok then .error "failed to save HLS playlist"
  else
    .ok { db with hlsPlaylists := db.hlsPlaylists ++ [{ p with id := db.nextID }],
                  nextID := db.nextID + 1 }

/-- storage.go `SaveHLSMerkleProof`: plain INSERT RETURNING id. -/
def SaveHLSMerkleProof (ok : Bool) (db : DBState) (p : Database.HLSMerkleProof) :
    Except String DBState :=
  if !ok then .error "failed to save HLS Merkle proof"
  else
    .ok { db with hlsMerkleProofs := db.hlsMerkleProofs ++ [{ p with id := db.nextID }],
                  nextID := db.nextID + 1 }

/-- storage.go `ArchiveStream`: INSERT .. ON CONFLICT (stream_id) DO
NOTHING RETURNING id.  On a conflict the statement returns no rows, the
`Scan` yields `pgx.ErrNoRows`, and the method returns `nil` — a duplicate
insert is silently ignored and the table is unchanged. -/
def ArchiveStream (ok : Bool) (db : DBState) (a : Database.Archive) :
    Except String DBState :=
  if !ok then .error "failed to archive stream"
  else if db.archive.any (fun r => r.streamID == a.streamID) then
    .ok db
  else
    .ok { db with archive := db.archive ++ [{ a with id := db.nextID }],
                  nextID := db.nextID + 1 }

/-- storage.go `GetArchiveEntry`: SELECT .. WHERE stream_id (QueryRow
takes the first row); `none` models `pgx.ErrNoRows`. -/
def GetArchiveEntry (db : DBState) (streamID : String) : Option Database.Archive :=
  db.archive.find? (fun r => r.streamID == streamID)

/-- storage.go `GetArchiveEntryByName`: SELECT .. WHERE stream_name ORDER
BY archived_at DESC LIMIT 1 — a row of maximal `archived_at` among the
rows with that name (SQL leaves the order of equal keys unspecified; the
fold keeps the earliest-inserted of equals). -/
def GetArchiveEntryByName (db : DBState) (streamName : String) : Option Database.Archive :=
  (db.archive.filter (fun r => r.streamName == streamName)).foldl
    (fun acc a =>
      match acc with
      | none => some a
      | some b => if b.archivedAt < a.archivedAt then some a else some b)
    none

/-- storage.go `GetAllArchiveEntries`: SELECT the whole table. -/
def GetAllArchiveEntries (db : DBState) : List Database.Archive :=
  db.archive

end Storage

namespace StreamMgr

/-!
Embedding of `internal/stream` (manager.go).  The `streams` map is an
association list keyed by `stream_id`; the per-stream `context.CancelFunc`
is modelled by a `cancelled` flag recording whether it has been triggered.
`StartStream` launches `protocol.RTSPClient.ProcessStream` in a goroutine;
the eventual effect of that goroutine (run to completion) is modelled
separately by `processCompletion` / `StartStreamRun` below.
-/

/-- manager.go `Stream` (the `cfg`, `logger` and `cmd` fields carry no
state the properties depend on; `cancel` becomes the `cancelled` flag). -/
structure Stream where
  id : String
  streamName : String
  rtspURL : String
  hlsPath : String
  startedAt : Nat
  status : String
  cancelled : Bool
deriving DecidableEq, Repr

/-- manager.go `StreamManager.streams` (`map[string]*Stream`). -/
structure StreamManager where
  streams : List (String × Stream)
deriving DecidableEq, Repr

/-- manager.go `StartStream` up to its `return nil` (the goroutine it
spawns is modelled separately): reject when the `stream_id` key is
already present, ensure the HLS directory (`dirOk` is the `EnsureDir`
outcome), insert the stream with status `running`. -/
def StartStream (sm : StreamManager) (hlsDir : String) (dirOk : Bool)
    (rtspURL streamID streamName : String) (now : Nat) : Except String StreamManager :=
  if (sm.streams.lookup streamID).isSome then
    .error ("stream " ++ streamID ++ " already exists")
  else if !dirOk then
    .error "failed to create HLS directory"
  else
    .ok ⟨sm.streams ++ [(streamID,
      { id := streamID, streamName := streamName, rtspURL := rtspURL,
        hlsPath := hlsDir ++ "/" ++ streamID ++ "/index.m3u8",
        startedAt := now, status := "running", cancelled := false })]⟩

/-- The tail of `StartStream`'s goroutine: on a `ProcessStream` error the
stream's status is set to `failed` (the entry is not removed and nothing
is archived); on success the goroutine leaves the map alone. -/
def processCompletion (sm : StreamManager) (streamID : String)
    (res : Except String Unit) : StreamManager :=
  match res with
  | .ok _ => sm
  | .error _ =>
    ⟨sm.streams.map (fun kv =>
      if kv.1 = streamID then (kv.1, { kv.2 with status := "failed" }) else kv)⟩

/-- manager.go `GetStream`. -/
def GetStream (sm : StreamManager) (streamID : String) : Option Stream :=
  sm.streams.lookup streamID

/-- manager.go `GetStreamByName`: first stream with the name in map
iteration order (the list order here). -/
def GetStreamByName (sm : StreamManager) (streamName : String) : Option Stream :=
  (sm.streams.find? (fun kv => kv.2.streamName == streamName)).map (fun kv => kv.2)

/-- manager.go `StopStream`: resolve the id, trigger the cancel handle,
set status `completed`, insert the archive row, and only on a successful
insert delete the entry; an insert error is returned with the entry still
present.  `archiveOk` is the database-driver outcome of the insert, `now`
the stop time (duration is `now - startedAt`). -/
def StopStream (sm : StreamManager) (archiveOk : Bool) (streamID : String)
    (now : Nat) (db : Storage.DBState) :
    Except String Unit × StreamManager × Storage.DBState :=
  match sm.streams.lookup streamID with
  | none => (.error ("stream " ++ streamID ++ " not found"), sm, db)
  | some st =>
    let st1 := { st with cancelled := true, status := "completed" }
    let sm1 : StreamManager :=
      ⟨sm.streams.map (fun kv => if kv.1 = streamID then (kv.1, st1) else kv)⟩
    match Storage.ArchiveStream archiveOk db
      { id := 0, streamID := streamID, streamName := st.streamName,
        status := "completed", duration := now - st.startedAt,
        hlsPlaylistPath := st.hlsPath, archivedAt := now } with
    | .error e => (.error ("failed to save archive entry: " ++ e), sm1, db)
    | .ok db1 =>
      (.ok (), ⟨sm1.streams.filter (fun kv => kv.1 ≠ streamID)⟩, db1)

end StreamMgr

namespace Protocol

/-- rtsp.go `StreamInfo`. -/
structure StreamInfo where
  hasVideo : Bool
  hasAudio : Bool
deriving DecidableEq, Repr

/-- Outcomes of every external effect `ProcessStream` performs, in
program order.  Each field is what the outside world answers when the
code reaches that call. -/
structure World where
  urlParse : Option (String × String)
  dnsOk : Bool
  reachOk : Bool
  previewOk : Bool
  ffprobeInfo : Option StreamInfo
  pingOk : Bool
  dbOk : Bool
  recordErr : Option String
  duration : Nat
  segments : List Bytes
  now : Nat
deriving DecidableEq, Repr

/-- rtsp.go `validateRTSPURL`: parse, scheme must be rtsp, host must be
present, hostname must resolve.  `urlParse` is the `url.Parse` outcome
(scheme, host), `dnsOk` the `net.LookupHost` outcome. -/
def validateRTSPURL (w : World) : Except String Unit :=
  match w.urlParse with
  | none => .error "failed to parse RTSP URL"
  | some (scheme, host) =>
    if scheme ≠ "rtsp" then .error ("URL scheme must be rtsp, got " ++ scheme)
    else if host = "" then .error "URL must contain a host"
    else if !w.dnsOk then .error "failed to resolve hostname"
    else .ok ()

/-- rtsp.go `checkRTSPStream`: one-second test ingest via ffmpeg. -/
def checkRTSPStream (w : World) : Except String Unit :=
  if w.reachOk then .ok () else .error "failed to connect to RTSP stream"

/-- rtsp.go `extractFirstFrame`: still-frame extraction; returns the
preview path on success. -/
def extractFirstFrame (w : World) (hlsDir : String) : Except String String :=
  if w.previewOk then .ok (hlsDir ++ "/preview.jpg")
  else .error "failed to extract first frame"

/-- rtsp.go `checkStreamInfo`: ffprobe composition report; requires a
video stream. -/
def checkStreamInfo (w : World) : Except String StreamInfo :=
  match w.ffprobeInfo with
  | none => .error "failed to probe RTSP stream"
  | some info =>
    if !info.hasVideo then .error "no video stream found in RTSP source"
    else .ok info

/-- The three probe steps of the start pipeline in program order (URL
validation and DNS, reachability, stream composition), used to state
probe-failure hypotheses. -/
def probeResult (w : World) : Except String Unit :=
  match validateRTSPURL w with
  | .error e => .error e
  | .ok _ =>
    match checkRTSPStream w with
    | .error e => .error e
    | .ok _ =>
      match checkStreamInfo w with
      | .error e => .error e
      | .ok _ => .ok ()

/-- Directory part of a path (filepath.Dir restricted to the slash-joined
paths the server builds). -/
def dirOf (p : String) : String :=
  match p.toList.reverse.dropWhile (fun c => c != '/') with
  | [] => "."
  | _ :: restRev => String.mk restRev.reverse

/-- rtsp.go `buildMerkleTreeForHLSSegments`: the glob result is sorted
lexicographically (index order, thanks to the zero-padded names), each file
is read (read failures are logged and skipped), and the SHA-256 of each
remaining file becomes a block; zero valid segments is an error.
`segments` holds the successfully read files in sorted order, so both
error branches collapse into the emptiness check. -/
def buildMerkleTreeForHLSSegments (segments : List Bytes) :
    Except String (List Bytes × Merkle.MerkleTree) :=
  if segments.isEmpty then .error "no HLS segments found"
  else
    let blocks := segments.map sha256
    match Merkle.NewMerkleTree sha256 blocks with
    | none => .error "failed to build Merkle tree"
    | some tree => .ok (blocks, tree)

end Protocol

/-- Go boolean JSON rendering. -/
def goBool (b : Bool) : String := if b then "true" else "false"

/-- Go `encoding/json` rendering of one `merkle.ProofStep`.  The struct
declares no json tags, so the keys are the exported field names `Hash`
and `IsLeft` verbatim, and the `[]byte` hash is rendered as a base64
string (both per encoding/json's documented defaults). -/
def proofStepJson (s : Merkle.ProofStep) : String :=
  "\x7b\"Hash\":\"" ++ base64Encode s.hash ++ "\",\"IsLeft\":" ++ goBool s.isLeft ++ "\x7d"

/-- The elements of the marshalled JSON array, comma-separated in path
order, as the encoder emits them one by one. -/
def proofPathJsonElems : List Merkle.ProofStep → String
  | [] => ""
  | [s] => proofStepJson s
  | s :: rest => proofStepJson s ++ "," ++ proofPathJsonElems rest

/-- rtsp.go `json.Marshal(proof.Path)`: the string persisted as the
`proof_path` column (the spec's `proof_blob`). -/
def jsonMarshalProofPath (path : List Merkle.ProofStep) : String :=
  "[" ++ proofPathJsonElems path ++ "]"

/-- Comma join of rendered strings (head, then comma-prefixed tail). -/
def joinComma : List String → String
  | [] => ""
  | [x] => x
  | x :: rest => x ++ "," ++ joinComma rest

/-- The serialization format described by the spec, followed verbatim for
comparison with `jsonMarshalProofPath`: a JSON array of objects with key
`hash` holding the sibling hash as a hex string and key `is_left` holding
a boolean, in leaf-to-root order. -/
def specProofBlob (path : List Merkle.ProofStep) : String :=
  "[" ++ joinComma (path.map (fun s =>
    "\x7b\"hash\":\"" ++ hexEncode s.hash ++ "\",\"is_left\":" ++ goBool s.isLeft ++ "\x7d")) ++ "]"

/-- The encoder emission agrees with the comma join of the per-step
objects, so the blob is exactly the array of `Hash`/`IsLeft` objects in
path order. -/
theorem proofPathJsonElems_eq_joinComma :
    ∀ path : List Merkle.ProofStep,
      proofPathJsonElems path = joinComma (path.map proofStepJson)
  | [] => rfl
  | [s] => rfl
  | s :: s2 :: rest => by
    show proofStepJson s ++ "," ++ proofPathJsonElems (s2 :: rest) =
      joinComma (proofStepJson s :: proofStepJson s2 :: rest.map proofStepJson)
    rw [proofPathJsonElems_eq_joinComma (s2 :: rest)]
    rfl

namespace Protocol

/-- The proof-persistence loop of rtsp.go `ProcessStream`: one
`GenerateProof` + `json.Marshal` + `SaveHLSMerkleProof` per block index;
generation, serialization or insert errors are logged and skipped. -/
def saveProofs (dbOk : Bool) (db : Storage.DBState) (streamID streamName : String)
    (blocks : List Bytes) (tree : Merkle.MerkleTree) (now : Nat) : Storage.DBState :=
  (List.range blocks.length).foldl
    (fun db i =>
      match Merkle.GenerateProof tree i with
      | none => db
      | some proof =>
        match Storage.SaveHLSMerkleProof dbOk db
          { id := 0, streamID := streamID, streamName := streamName,
            segmentIndex := i, proofPath := jsonMarshalProofPath proof.path,
            createdAt := now } with
        | .error _ => db
        | .ok db1 => db1)
    db

/-- rtsp.go `RTSPClient.ProcessStream`, run to completion, as a function
of the external-world outcomes: returns the Go result and the database
state after all its writes.  The branch structure follows the source in
program order; the recording stage's result is `w.recordErr` /
`w.duration` (cancellation also flows into the success branch, as in the
source's `ctx.Done()` arm).  Note the source's failure path updates the
metadata with the still-zero `duration` variable, and its success path
passes a metadata struct with only `StreamID` and `Duration` set, zeroing
resolution, format and preview path — both are modelled as written. -/
def ProcessStream (w : World) (streamID streamName hlsPath : String)
    (db : Storage.DBState) : Except String Unit × Storage.DBState :=
  match validateRTSPURL w with
  | .error e => (.error ("invalid RTSP URL: " ++ e), db)
  | .ok _ =>
  match checkRTSPStream w with
  | .error e => (.error ("RTSP stream is unavailable: " ++ e), db)
  | .ok _ =>
  let hlsDir := dirOf hlsPath
  let previewPath :=
    match extractFirstFrame w hlsDir with
    | .error _ => ""
    | .ok p => p
  match checkStreamInfo w with
  | .error e => (.error ("failed to check stream info: " ++ e), db)
  | .ok _streamInfo =>
  if !w.pingOk then (.error "database connection failed", db)
  else
  match Storage.SaveStreamMetadata w.dbOk db
    { streamID := streamID, streamName := streamName, duration := 0,
      resolution := "1920x1080", format := "hls", createdAt := w.now,
      previewPath := previewPath } with
  | .error e => (.error ("failed to save stream metadata: " ++ e), db)
  | .ok db1 =>
  match Storage.SaveProcessingLog w.dbOk db1
    { id := 0, streamID := streamID, streamName := streamName,
      logMessage := "Started processing RTSP stream", logLevel := "info",
      createdAt := w.now } with
  | .error e => (.error ("failed to save processing log: " ++ e), db1)
  | .ok db2 =>
  match w.recordErr with
  | some e =>
    let db3 :=
      match Storage.UpdateStreamMetadata w.dbOk db2
        { streamID := streamID, streamName := "", duration := 0,
          resolution := "", format := "", createdAt := 0, previewPath := "" } with
      | .error _ => db2
      | .ok d => d
    (.error ("failed to record video: " ++ e), db3)
  | none =>
  let duration := w.duration
  match Storage.UpdateStreamMetadata w.dbOk db2
    { streamID := streamID, streamName := "", duration := duration,
      resolution := "", format := "", createdAt := 0, previewPath := "" } with
  | .error e => (.error ("failed to update stream metadata duration: " ++ e), db2)
  | .ok db3 =>
  match buildMerkleTreeForHLSSegments w.segments with
  | .error e => (.error e, db3)
  | .ok (blocks, tree) =>
  if !w.pingOk then (.error "database connection failed", db3)
  else
  let db4 := saveProofs w.dbOk db3 streamID streamName blocks tree w.now
  match Storage.SaveHLSPlaylist w.dbOk db4
    { id := 0, streamID := streamID, streamName := streamName,
      playlistPath := hlsPath, createdAt := w.now } with
  | .error e => (.error ("failed to save HLS playlist: " ++ e), db4)
  | .ok db5 =>
  match Storage.ArchiveStream w.dbOk db5
    { id := 0, streamID := streamID, streamName := streamName,
      status := "completed", duration := duration,
      hlsPlaylistPath := hlsPath, archivedAt := w.now } with
  | .error e => (.error ("failed to save archive entry: " ++ e), db5)
  | .ok db6 =>
  match Storage.SaveProcessingLog w.dbOk db6
    { id := 0, streamID := streamID, streamName := streamName,
      logMessage := "Successfully processed RTSP stream", logLevel := "info",
      createdAt := w.now } with
  | .error e => (.error ("failed to save processing log: " ++ e), db6)
  | .ok db7 => (.ok (), db7)

end Protocol

/-- Decidable equality of `Except` results, for evaluating outcomes on
concrete inputs. -/
instance {ε α : Type} [DecidableEq ε] [DecidableEq α] : DecidableEq (Except ε α) :=
  fun x y =>
    match x, y with
    | .error a, .error b =>
      if h : a = b then .isTrue (by rw [h]) else .isFalse (by intro hc; injection hc; contradiction)
    | .ok a, .ok b =>
      if h : a = b then .isTrue (by rw [h]) else .isFalse (by intro hc; injection hc; contradiction)
    | .error _, .ok _ => .isFalse (by intro hc; injection hc)
    | .ok _, .error _ => .isFalse (by intro hc; injection hc)

namespace StreamMgr

/-- Everything a start request eventually causes: the value `StartStream`
returned to the handler, the goroutine's `ProcessStream` result (if the
goroutine ran at all), and the manager / database state after the
goroutine finished. -/
structure StartOutcome where
  startResult : Except String Unit
  procResult : Option (Except String Unit)
  mgr : StreamManager
  db : Storage.DBState
deriving DecidableEq, Repr

/-- `StartStream` followed by its goroutine run to completion: the
synchronous part inserts the running stream and returns nil; the
goroutine then performs `ProcessStream` and on error only flips the
status to `failed`. -/
def StartStreamRun (sm : StreamManager) (db : Storage.DBState) (w : Protocol.World)
    (hlsDir : String) (dirOk : Bool) (rtspURL streamID streamName : String) :
    StartOutcome :=
  match StartStream sm hlsDir dirOk rtspURL streamID streamName w.now with
  | .error e => ⟨.error e, none, sm, db⟩
  | .ok sm1 =>
    let hlsPath := hlsDir ++ "/" ++ streamID ++ "/index.m3u8"
    let (res, db1) := Protocol.ProcessStream w streamID streamName hlsPath db
    ⟨.ok (), some res, processCompletion sm1 streamID res, db1⟩

end StreamMgr

namespace Api

/-!
Embedding of the pieces of `internal/api/handlers.go` the properties are
about: the session-id synthesis of `StartStreamHandler` (line 91) and the
seek-rewrite branch of `ArchiveHandler` (lines 576-645; the `/stream/`
handler carries the identical loop).  Go string primitives are modelled
on character lists.
-/

/-- strings.HasPrefix. -/
def strStarts (s pre : String) : Bool := pre.toList.isPrefixOf s.toList

/-- strings.HasSuffix. -/
def strEnds (s suf : String) : Bool := suf.toList.isSuffixOf s.toList

/-- strings.TrimPrefix: drop the prefix when present, else unchanged. -/
def strDropStart (s pre : String) : String :=
  if strStarts s pre then String.mk (s.toList.drop pre.toList.length) else s

/-- strings.TrimSuffix: drop the suffix when present, else unchanged. -/
def strDropEnd (s suf : String) : String :=
  if strEnds s suf then String.mk (s.toList.take (s.toList.length - suf.toList.length)) else s

/-- strings.Contains: some drop of `s` starts with `sub`. -/
def strContains (s sub : String) : Bool :=
  (List.range (s.toList.length + 1)).any (fun i => sub.toList.isPrefixOf (s.toList.drop i))

/-- handlers.go line 91: `fmt.Sprintf("%s_%s_%s", uuidStr, streamName,
timestamp)` — the session id a start request synthesises.  `uuid.New()`
makes `uuidStr` fresh on every request. -/
def startStreamHandlerID (uuidStr streamName timestamp : String) : String :=
  uuidStr ++ "_" ++ streamName ++ "_" ++ timestamp

/-- fmt.Sprintf("%03d"). -/
def pad3 (n : Nat) : String :=
  (if n < 10 then "00" else if n < 100 then "0" else "") ++ toString n

/-- Digit run to a natural number. -/
def digitsToNat (ds : List Char) : Nat :=
  ds.foldl (fun n c => n * 10 + (c.toNat - 48)) 0

/-- A non-negative duration kept as an exact fraction `num / den`
(`den > 0` by construction): the decimal values ffmpeg writes into
`#EXTINF` lines are exactly representable, so this carries the same
information as the Go float64 for every value the loop handles. -/
structure Dur where
  num : Nat
  den : Nat
deriving DecidableEq, Repr

/-- strconv.ParseFloat on the decimal literals ffmpeg writes into
`#EXTINF` lines (digits, optional dot, digits; Go accepts further forms
the playlists never contain). -/
def parseDuration (s : List Char) : Option Dur :=
  let intDigits := s.takeWhile Char.isDigit
  let rest := s.dropWhile Char.isDigit
  match rest with
  | [] => if intDigits.isEmpty then none else some ⟨digitsToNat intDigits, 1⟩
  | '.' :: frac =>
    if frac.all Char.isDigit && !(intDigits.isEmpty && frac.isEmpty) then
      some ⟨digitsToNat intDigits * 10 ^ frac.length + digitsToNat frac, 10 ^ frac.length⟩
    else none
  | _ => none

/-- fmt.Sprintf("%.3f") for the non-negative durations at hand: round to
thousandths (exact for the at-most-3-decimal values the loop ever
formats, and off by at most the float rounding Go itself performs
otherwise) and print with three decimals. -/
def fmt3 (q : Dur) : String :=
  let m := (q.num * 1000 + q.den / 2) / q.den
  toString (m / 1000) ++ "." ++
    (if m % 1000 < 10 then "00" else if m % 1000 < 100 then "0" else "") ++ toString (m % 1000)

/-- The scanner state of the seek-rewrite loop: the lines written so far,
the found flag, and the most recently parsed `#EXTINF` duration (the Go
float64 zero value initially). -/
structure ScanState where
  newPlaylist : List String
  foundSegment : Bool
  segmentDuration : Dur
deriving DecidableEq, Repr

/-- The header prefixes copied verbatim. -/
def isHeaderLine (line : String) : Bool :=
  strStarts line "#EXTM3U" || strStarts line "#EXT-X-VERSION" ||
  strStarts line "#EXT-X-TARGETDURATION" || strStarts line "#EXT-X-MEDIA-SEQUENCE"

/-- One iteration of the seek-rewrite scan (handlers.go 604-627): copy a
header line and continue; on an `#EXTINF` line parse and remember the
duration (2.0 on a parse error) — with no continue, so the line falls
through; set the found flag when the line contains the target segment
name; once the flag is set, write a generated `#EXTINF` line followed by
the current line — whatever the current line is. -/
def scanLine (segmentName : String) (st : ScanState) (line : String) : ScanState :=
  if isHeaderLine line then
    { st with newPlaylist := st.newPlaylist ++ [line] }
  else
    let st1 :=
      if strStarts line "#EXTINF:" then
        let durationStr := strDropEnd (strDropStart line "#EXTINF:") ","
        match parseDuration durationStr.toList with
        | some q => { st with segmentDuration := q }
        | none => { st with segmentDuration := ⟨2, 1⟩ }
      else st
    let st2 := if strContains line segmentName then { st1 with foundSegment := true } else st1
    if st2.foundSegment then
      { st2 with newPlaylist :=
          st2.newPlaylist ++ ["#EXTINF:" ++ fmt3 st2.segmentDuration ++ ","] ++ [line] }
    else st2

/-- Result of the archive seek branch. -/
inductive SeekResult where
  | notFound (msg : String)
  | ok (lines : List String)
deriving DecidableEq, Repr

/-- handlers.go 576-645, the `ArchiveHandler` seek branch (reached with
`time` parsed, positive, and the archive entry resolved to `streamID`):
compute the target index as `seekTime / 2` and its segment name, 404 when
the segment file is absent (`segmentExists` is the `os.Stat` outcome),
scan the playlist lines through `scanLine`, 404 when the target name was
never seen, else serve the accumulated lines. -/
def archiveSeekRewrite (streamID : String) (playlistLines : List String)
    (segmentExists : Bool) (seekTime : Nat) : SeekResult :=
  let segmentIndex := seekTime / 2
  let segmentName := streamID ++ "_segment_" ++ pad3 segmentIndex ++ ".ts"
  if !segmentExists then .notFound ("Segment not found for time " ++ toString seekTime)
  else
    let fin := playlistLines.foldl (scanLine segmentName)
      { newPlaylist := [], foundSegment := false, segmentDuration := ⟨0, 1⟩ }
    if !fin.foundSegment then
      .notFound ("Segment for time " ++ toString seekTime ++ " not found")
    else .ok fin.newPlaylist

/-- Count of `#EXTINF` lines in a playlist. -/
def extinfCount (lines : List String) : Nat :=
  (lines.filter (fun l => strStarts l "#EXTINF")).length

/-- First segment line (a line ending in `.ts`) of a playlist. -/
def firstSegmentLine (lines : List String) : Option String :=
  lines.find? (fun l => strEnds l ".ts")

end Api

namespace StreamMgr

/-- Updating the value at one key through the map rewrite used by
`StopStream` / `processCompletion` changes exactly that key's lookup. -/
theorem lookup_map_update (k : String) (f : Stream → Stream) :
    ∀ l : List (String × Stream),
      (l.map (fun kv => if kv.1 = k then (kv.1, f kv.2) else kv)).lookup k =
        (l.lookup k).map f
  | [] => rfl
  | (k1, v) :: rest => by
    by_cases h : k1 = k
    · subst h
      rw [List.map_cons, if_pos rfl]
      simp [List.lookup]
    · have hne : (k == k1) = false := by
        rw [beq_eq_false_iff_ne]
        intro he
        exact h he.symm
      rw [List.map_cons, if_neg h]
      simp only [List.lookup, hne]
      exact lookup_map_update k f rest

/-- Deleting a key by filtering removes its lookup. -/
theorem lookup_filter_ne (k : String) :
    ∀ l : List (String × Stream), (l.filter (fun kv => kv.1 ≠ k)).lookup k = none
  | [] => rfl
  | (k1, v) :: rest => by
    by_cases h : k1 = k
    · have hd : (decide ((k1, v).1 ≠ k)) = false := by simp [h]
      rw [List.filter_cons, hd]
      simp only [Bool.false_eq_true, if_false]
      exact lookup_filter_ne k rest
    · have hd : (decide ((k1, v).1 ≠ k)) = true := by simpa using h
      have hne : (k == k1) = false := by
        rw [beq_eq_false_iff_ne]
        intro he
        exact h he.symm
      rw [List.filter_cons, hd]
      simp only [if_true, List.lookup, hne]
      exact lookup_filter_ne k rest

/-- Appending a fresh key makes it found. -/
theorem lookup_append_fresh (k : String) (v : Stream) :
    ∀ l : List (String × Stream), l.lookup k = none → (l ++ [(k, v)]).lookup k = some v
  | [], _ => by simp [List.lookup]
  | (k1, v1) :: rest, h => by
    simp only [List.lookup] at h
    cases hc : k == k1 with
    | true => rw [hc] at h; simp at h
    | false =>
      rw [hc] at h
      rw [List.cons_append]
      simp only [List.lookup, hc]
      exact lookup_append_fresh k v rest h

end StreamMgr

namespace Storage

/-- Number of archive rows carrying a given stream id. -/
def countById (db : DBState) (streamID : String) : Nat :=
  (db.archive.filter (fun r => r.streamID == streamID)).length

/-- A sequence of archive attempts with a healthy driver, stopping at the
first error (none occurs). -/
def archiveMany (db : DBState) : List Database.Archive → Except String DBState
  | [] => .ok db
  | a :: rest =>
    match ArchiveStream true db a with
    | .error e => .error e
    | .ok db1 => archiveMany db1 rest

/-- A positive count means the conflict test fires. -/
theorem any_of_countById_pos (db : DBState) (sid : String) (h : 0 < countById db sid) :
    (db.archive.any (fun r => r.streamID == sid)) = true := by
  simp only [countById] at h
  rw [List.any_eq_true]
  rcases List.exists_mem_of_length_pos h with ⟨r, hr⟩
  exact ⟨r, (List.mem_filter.mp hr).1, (List.mem_filter.mp hr).2⟩

/-- A zero count means the conflict test cannot fire. -/
theorem any_of_countById_zero (db : DBState) (sid : String) (h : countById db sid = 0) :
    (db.archive.any (fun r => r.streamID == sid)) = false := by
  simp only [countById, List.length_eq_zero] at h
  rw [List.any_eq_false]
  intro r hr
  intro hc
  have : r ∈ db.archive.filter (fun r => r.streamID == sid) := List.mem_filter.mpr ⟨hr, hc⟩
  rw [h] at this
  simp at this

/-- Inserting into a conflict-free table bumps the count to one. -/
theorem ArchiveStream_insert (db : DBState) (a : Database.Archive)
    (h : countById db a.streamID = 0) :
    ArchiveStream true db a =
      .ok { db with
            archive := db.archive ++ [{ a with id := db.nextID }],
            nextID := db.nextID + 1 } ∧
    countById { db with
                archive := db.archive ++ [{ a with id := db.nextID }],
                nextID := db.nextID + 1 } a.streamID = 1 := by
  constructor
  · simp [ArchiveStream, any_of_countById_zero db a.streamID h]
  · simp only [countById, List.filter_append]
    have hc : countById db a.streamID = 0 := h
    simp only [countById, List.length_eq_zero] at hc
    rw [hc]
    simp

/-- Existential form of `ArchiveStream_insert`. -/
theorem ArchiveStream_insert_ex (db : DBState) (a : Database.Archive)
    (h : countById db a.streamID = 0) :
    ∃ db1, ArchiveStream true db a = .ok db1 ∧ countById db1 a.streamID = 1 :=
  ⟨_, (ArchiveStream_insert db a h).1, (ArchiveStream_insert db a h).2⟩

/-- A duplicate insert succeeds and leaves the table unchanged. -/
theorem ArchiveStream_dup (db : DBState) (a : Database.Archive)
    (h : 0 < countById db a.streamID) :
    ArchiveStream true db a = .ok db := by
  simp [ArchiveStream, any_of_countById_pos db a.streamID h]

/-- Once a row with the id exists, any run of further attempts for the
same id succeeds without touching the table. -/
theorem archiveMany_dup (sid : String) :
    ∀ (as : List Database.Archive) (db : DBState), (∀ a ∈ as, a.streamID = sid) →
      0 < countById db sid → archiveMany db as = .ok db
  | [], _, _, _ => rfl
  | a :: rest, db, hall, hpos => by
    have hid : a.streamID = sid := hall a (by simp)
    simp only [archiveMany, ArchiveStream_dup db a (by rw [hid]; exact hpos)]
    exact archiveMany_dup sid rest db (fun b hb => hall b (by simp [hb])) hpos

end Storage

namespace Storage

/-- Folding the maximum-`archived_at` selection from `some a` yields a row
among `a` and the list whose timestamp dominates `a` and every member. -/
theorem foldl_pick_spec :
    ∀ (l : List Database.Archive) (a : Database.Archive),
      ∃ r, l.foldl (fun acc x =>
          match acc with
          | none => some x
          | some b => if b.archivedAt < x.archivedAt then some x else some b)
        (some a) = some r ∧
        (r = a ∨ r ∈ l) ∧ a.archivedAt ≤ r.archivedAt ∧
        ∀ b ∈ l, b.archivedAt ≤ r.archivedAt
  | [], a => ⟨a, rfl, Or.inl rfl, le_refl _, by simp⟩
  | x :: rest, a => by
    simp only [List.foldl_cons]
    by_cases h : a.archivedAt < x.archivedAt
    · rw [if_pos h]
      obtain ⟨r, hr, hmem, hax, hall⟩ := foldl_pick_spec rest x
      refine ⟨r, hr, ?_, by omega, ?_⟩
      · rcases hmem with rfl | hm
        · exact Or.inr (by simp)
        · exact Or.inr (by simp [hm])
      · intro b hb
        rcases List.mem_cons.mp hb with rfl | hbr
        · exact hax
        · exact hall b hbr
    · rw [if_neg h]
      obtain ⟨r, hr, hmem, hax, hall⟩ := foldl_pick_spec rest a
      refine ⟨r, hr, ?_, hax, ?_⟩
      · rcases hmem with rfl | hm
        · exact Or.inl rfl
        · exact Or.inr (by simp [hm])
      · intro b hb
        rcases List.mem_cons.mp hb with rfl | hbr
        · omega
        · exact hall b hbr

end Storage

/-!
The claims, settled.  Each claim theorem is stated over the embedding
above; concrete evaluations discharge their hypotheses or exhibit
counterexamples.
-/

/-- C1: for every block sequence with at least one block, building the
hash tree and generating an inclusion proof for any leaf index
`0 ≤ i < n_leaves` yields a proof that verifies against the tree's root
hash, `VerifyProof (GenerateProof tree i) tree.Root.Hash = true` —
including trees whose levels have odd node counts, where the unpaired
node is promoted unchanged. -/
theorem C1_generate_verify (blocks : List Bytes) (hne : blocks ≠ [])
    (i : Nat) (hi : i < blocks.length) :
    ∃ t p, Merkle.NewMerkleTree sha256 blocks = some t ∧
      Merkle.GenerateProof t i = some p ∧
      Merkle.VerifyProof sha256 p t.root.hash = true :=
  Merkle.generate_verify sha256 blocks hne i hi

/-- Witness for C1 at a three-block sequence (odd leaf count, carried
node) and its last index. -/
theorem C1_generate_verify_witness :
    (([[0], [1], [2]] : List Bytes) ≠ [] ∧ 2 < ([[0], [1], [2]] : List Bytes).length) ∧
    (∃ t p, Merkle.NewMerkleTree sha256 [[0], [1], [2]] = some t ∧
      Merkle.GenerateProof t 2 = some p ∧
      Merkle.VerifyProof sha256 p t.root.hash = true) :=
  ⟨⟨by decide, by decide⟩, C1_generate_verify [[0], [1], [2]] (by decide) 2 (by decide)⟩

/-- C7 (amended): for every tree built over an odd number of leaves with
n ≥ 3, the proof generated for the last (unpaired) leaf is valid and
its path is strictly shorter than the maximum path length over all
leaves — the carried leaf contributes no step at the levels that carry
it; the gap is not always exactly one step (five leaves give 1 against
a maximum of 3). -/
theorem C7_odd_last_leaf (blocks : List Bytes) (hodd : blocks.length % 2 = 1)
    (h3 : 3 ≤ blocks.length) :
    ∃ t p, Merkle.NewMerkleTree sha256 blocks = some t ∧
      Merkle.GenerateProof t (blocks.length - 1) = some p ∧
      Merkle.VerifyProof sha256 p t.root.hash = true ∧
      p.path.length < Merkle.maxProofLen t :=
  Merkle.odd_last_short sha256 blocks hodd h3

/-- Witness for C7 at three leaves. -/
theorem C7_odd_last_leaf_witness :
    (([[5], [6], [7]] : List Bytes).length % 2 = 1 ∧ 3 ≤ ([[5], [6], [7]] : List Bytes).length) ∧
    (∃ t p, Merkle.NewMerkleTree sha256 [[5], [6], [7]] = some t ∧
      Merkle.GenerateProof t (([[5], [6], [7]] : List Bytes).length - 1) = some p ∧
      Merkle.VerifyProof sha256 p t.root.hash = true ∧
      p.path.length < Merkle.maxProofLen t) :=
  ⟨⟨by decide, by decide⟩, C7_odd_last_leaf [[5], [6], [7]] (by decide) (by decide)⟩

/-- Counterexample to C7 as stated: over five leaves the unpaired leaf's
proof path has length 1 while the maximum over all leaves is 3 — shorter
by two steps, not by exactly one. -/
theorem C7_counterexample :
    ((Merkle.NewMerkleTree sha256 [[0], [1], [2], [3], [4]]).bind
      (fun t => (Merkle.GenerateProof t 4).map
        (fun p => (p.path.length, Merkle.maxProofLen t)))) = some (1, 3) ∧
    (1 : Nat) ≠ 3 - 1 :=
  ⟨by decide, by decide⟩

/-- C6 (amended): the persisted `proof_blob` of every segment proof is a
JSON array of the path's steps in leaf-to-root order (the path is the
bottom-up sibling walk `pathSteps`), each step an object with key `Hash`
carrying the base64-encoded sibling hash and key `IsLeft` carrying a
boolean — the encoding/json defaults for the untagged Go struct, rather
than the `hash`/hex and `is_left` keys the spec words describe. -/
theorem C6_proof_blob_format (blocks : List Bytes) (hne : blocks ≠ [])
    (i : Nat) (hi : i < blocks.length) :
    ∃ t p, Merkle.NewMerkleTree sha256 blocks = some t ∧
      Merkle.GenerateProof t i = some p ∧
      p.path = Merkle.pathSteps t.root i ∧
      jsonMarshalProofPath p.path = "[" ++ joinComma (p.path.map proofStepJson) ++ "]" := by
  obtain ⟨t, p, hmk, hgen, _⟩ := Merkle.generate_verify sha256 blocks hne i hi
  have hpath : p.path = Merkle.pathSteps t.root i := by
    by_cases hlt : i < t.leaves.length
    · simp only [Merkle.GenerateProof, hlt, if_true, Option.some.injEq] at hgen
      rw [← hgen]
    · simp [Merkle.GenerateProof, hlt] at hgen
  refine ⟨t, p, hmk, hgen, hpath, ?_⟩
  show "[" ++ proofPathJsonElems p.path ++ "]" = _
  rw [proofPathJsonElems_eq_joinComma]

/-- Witness for C6 at a two-block tree and leaf 0. -/
theorem C6_proof_blob_format_witness :
    (([[0], [1]] : List Bytes) ≠ [] ∧ 0 < ([[0], [1]] : List Bytes).length) ∧
    (∃ t p, Merkle.NewMerkleTree sha256 [[0], [1]] = some t ∧
      Merkle.GenerateProof t 0 = some p ∧
      p.path = Merkle.pathSteps t.root 0 ∧
      jsonMarshalProofPath p.path = "[" ++ joinComma (p.path.map proofStepJson) ++ "]") :=
  ⟨⟨by decide, by decide⟩, C6_proof_blob_format [[0], [1]] (by decide) 0 (by decide)⟩

/-- Counterexample to C6 as stated: for the two-block tree's first leaf
the marshalled blob differs from the hex/`hash`/`is_left` format the
claim describes (the keys are `Hash`/`IsLeft` and the hash is base64). -/
theorem C6_counterexample :
    ((Merkle.NewMerkleTree sha256 [[0], [1]]).bind
      (fun t => Merkle.GenerateProof t 0)).map
      (fun p => jsonMarshalProofPath p.path == specProofBlob p.path) = some false := by
  decide

/-- C8: inserting an archive entry for a session id that already has a
row is silently ignored — every attempt in the run returns success, a
later duplicate insert returns success and leaves the table unchanged,
and after any non-empty run of attempts for one session id (starting
with no row for it) exactly one archive row with that id exists. -/
theorem C8_archive_idempotent (db : Storage.DBState) (sid : String)
    (h0 : Storage.countById db sid = 0) (as : List Database.Archive)
    (hne : as ≠ []) (hall : ∀ a ∈ as, a.streamID = sid) :
    ∃ db1, Storage.archiveMany db as = .ok db1 ∧ Storage.countById db1 sid = 1 ∧
      ∀ a : Database.Archive, a.streamID = sid →
        Storage.ArchiveStream true db1 a = .ok db1 := by
  match as, hne with
  | a :: rest, _ =>
    have hid : a.streamID = sid := hall a (by simp)
    obtain ⟨db1, hins, hcount⟩ := Storage.ArchiveStream_insert_ex db a (by rw [hid]; exact h0)
    refine ⟨db1, ?_, ?_, ?_⟩
    · simp only [Storage.archiveMany, hins]
      exact Storage.archiveMany_dup sid rest _ (fun b hb => hall b (by simp [hb]))
        (by rw [← hid, hcount]; decide)
    · rw [← hid]
      exact hcount
    · intro a2 ha2
      exact Storage.ArchiveStream_dup _ a2 (by rw [ha2, ← hid, hcount]; decide)

/-- Witness for C8: two attempts for the same id on the empty database. -/
theorem C8_archive_idempotent_witness :
    (Storage.countById Storage.emptyDB "sid1" = 0 ∧
     ([⟨0, "sid1", "camA", "completed", 7, "p", 5⟩,
       ⟨0, "sid1", "camA", "completed", 9, "p", 6⟩] : List Database.Archive) ≠ [] ∧
     ∀ a ∈ ([⟨0, "sid1", "camA", "completed", 7, "p", 5⟩,
       ⟨0, "sid1", "camA", "completed", 9, "p", 6⟩] : List Database.Archive),
         a.streamID = "sid1") ∧
    (∃ db1, Storage.archiveMany Storage.emptyDB
        [⟨0, "sid1", "camA", "completed", 7, "p", 5⟩,
         ⟨0, "sid1", "camA", "completed", 9, "p", 6⟩] = .ok db1 ∧
      Storage.countById db1 "sid1" = 1 ∧
      ∀ a : Database.Archive, a.streamID = "sid1" →
        Storage.ArchiveStream true db1 a = .ok db1) :=
  ⟨⟨by decide, by decide, by decide⟩,
    C8_archive_idempotent Storage.emptyDB "sid1" (by decide) _ (by decide) (by decide)⟩

/-- C9: whenever the archive holds one or more entries with a given
session name, lookup-by-name returns an entry with that name whose
`archived_at` is greatest among them. -/
theorem C9_lookup_newest (db : Storage.DBState) (name : String)
    (h : db.archive.filter (fun r => r.streamName == name) ≠ []) :
    ∃ a, Storage.GetArchiveEntryByName db name = some a ∧ a ∈ db.archive ∧
      a.streamName = name ∧
      ∀ b ∈ db.archive, b.streamName = name → b.archivedAt ≤ a.archivedAt := by
  cases hf : db.archive.filter (fun r => r.streamName == name) with
  | nil => exact absurd hf h
  | cons x rest =>
    obtain ⟨r, hr, hmem, hax, hall⟩ := Storage.foldl_pick_spec rest x
    have hres : Storage.GetArchiveEntryByName db name = some r := by
      show (db.archive.filter (fun r => r.streamName == name)).foldl _ none = some r
      rw [hf]
      exact hr
    have hrmem : r ∈ x :: rest := by
      rcases hmem with rfl | hm
      · simp
      · simp [hm]
    have hrfil : r ∈ db.archive.filter (fun r => r.streamName == name) := by
      rw [hf]
      exact hrmem
    refine ⟨r, hres, (List.mem_filter.mp hrfil).1, ?_, ?_⟩
    · have := (List.mem_filter.mp hrfil).2
      simpa using this
    · intro b hb hbname
      have hbfil : b ∈ db.archive.filter (fun r => r.streamName == name) :=
        List.mem_filter.mpr ⟨hb, by simpa using hbname⟩
      rw [hf] at hbfil
      rcases List.mem_cons.mp hbfil with rfl | hbr
      · exact hax
      · exact hall b hbr

/-- Witness for C9: two rows named camA with timestamps 5 and 9 — the
newest (9) wins. -/
theorem C9_lookup_newest_witness :
    (({ Storage.emptyDB with archive :=
        [⟨1, "id1", "camA", "completed", 7, "p1", 5⟩,
         ⟨2, "id2", "camA", "completed", 9, "p2", 9⟩] } : Storage.DBState).archive.filter
      (fun r => r.streamName == "camA") ≠ []) ∧
    (∃ a, Storage.GetArchiveEntryByName
        { Storage.emptyDB with archive :=
          [⟨1, "id1", "camA", "completed", 7, "p1", 5⟩,
           ⟨2, "id2", "camA", "completed", 9, "p2", 9⟩] } "camA" = some a ∧
      a ∈ ({ Storage.emptyDB with archive :=
          [⟨1, "id1", "camA", "completed", 7, "p1", 5⟩,
           ⟨2, "id2", "camA", "completed", 9, "p2", 9⟩] } : Storage.DBState).archive ∧
      a.streamName = "camA" ∧
      ∀ b ∈ ({ Storage.emptyDB with archive :=
          [⟨1, "id1", "camA", "completed", 7, "p1", 5⟩,
           ⟨2, "id2", "camA", "completed", 9, "p2", 9⟩] } : Storage.DBState).archive,
        b.streamName = "camA" → b.archivedAt ≤ a.archivedAt) :=
  ⟨by decide, C9_lookup_newest _ "camA" (by decide)⟩

namespace Storage

/-- A metadata upsert with a healthy driver succeeds and never touches
the archive table. -/
theorem SaveStreamMetadata_not_error (db : DBState) (m : Database.StreamMetadata)
    (e : String) : SaveStreamMetadata true db m ≠ .error e := by
  unfold SaveStreamMetadata
  split
  · simp_all
  · split <;> simp

/-- Archive rows are untouched by the metadata upsert. -/
theorem SaveStreamMetadata_ok_archive (db : DBState) (m : Database.StreamMetadata)
    (d : DBState) (h : SaveStreamMetadata true db m = .ok d) : d.archive = db.archive := by
  unfold SaveStreamMetadata at h
  split at h
  · simp_all
  · split at h <;>
    · simp only [Except.ok.injEq] at h
      rw [← h]

/-- A log insert with a healthy driver succeeds. -/
theorem SaveProcessingLog_not_error (db : DBState) (l : Database.ProcessingLog)
    (e : String) : SaveProcessingLog true db l ≠ .error e := by
  simp [SaveProcessingLog]

/-- Archive rows are untouched by a log insert. -/
theorem SaveProcessingLog_ok_archive (db : DBState) (l : Database.ProcessingLog)
    (d : DBState) (h : SaveProcessingLog true db l = .ok d) : d.archive = db.archive := by
  simp only [SaveProcessingLog, Bool.not_true, Bool.false_eq_true, if_false,
    Except.ok.injEq] at h
  rw [← h]

/-- A metadata update with a healthy driver succeeds. -/
theorem UpdateStreamMetadata_not_error (db : DBState) (m : Database.StreamMetadata)
    (e : String) : UpdateStreamMetadata true db m ≠ .error e := by
  simp [UpdateStreamMetadata]

/-- Archive rows are untouched by a metadata update. -/
theorem UpdateStreamMetadata_ok_archive (db : DBState) (m : Database.StreamMetadata)
    (d : DBState) (h : UpdateStreamMetadata true db m = .ok d) : d.archive = db.archive := by
  simp only [UpdateStreamMetadata, Bool.not_true, Bool.false_eq_true, if_false,
    Except.ok.injEq] at h
  rw [← h]

end Storage

namespace Protocol

/-- When any probe step fails, `ProcessStream` returns an error before
performing a single database write. -/
theorem ProcessStream_probe_fail (w : World) (e : String)
    (h : probeResult w = .error e) (streamID streamName hlsPath : String)
    (db : Storage.DBState) :
    ∃ e2, ProcessStream w streamID streamName hlsPath db = (.error e2, db) := by
  unfold probeResult at h
  unfold ProcessStream
  cases hval : validateRTSPURL w with
  | error ev =>
    exact ⟨_, rfl⟩
  | ok u =>
    cases u
    rw [hval] at h
    cases hreach : checkRTSPStream w with
    | error er =>
      exact ⟨_, rfl⟩
    | ok u2 =>
      cases u2
      rw [hreach] at h
      cases hinfo : checkStreamInfo w with
      | error ei =>
        exact ⟨_, rfl⟩
      | ok info =>
        rw [hinfo] at h
        exact Except.noConfusion h

/-- When the probe succeeds, each of its three steps succeeded. -/
theorem probeResult_ok_parts (w : World) (h : probeResult w = .ok ()) :
    validateRTSPURL w = .ok () ∧ checkRTSPStream w = .ok () ∧
    ∃ info, checkStreamInfo w = .ok info := by
  unfold probeResult at h
  cases hval : validateRTSPURL w with
  | error ev =>
    rw [hval] at h
    exact Except.noConfusion h
  | ok u =>
    cases u
    rw [hval] at h
    cases hreach : checkRTSPStream w with
    | error er =>
      rw [hreach] at h
      exact Except.noConfusion h
    | ok u2 =>
      cases u2
      rw [hreach] at h
      cases hinfo : checkStreamInfo w with
      | error ei =>
        rw [hinfo] at h
        exact Except.noConfusion h
      | ok info =>
        exact ⟨rfl, rfl, info, rfl⟩

end Protocol

namespace StreamMgr

/-- `lookup_map_update` specialised to the goroutine's failure rewrite. -/
theorem lookup_failed_update (l : List (String × Stream)) (k : String) :
    (l.map (fun kv => if kv.1 = k then (kv.1, { kv.2 with status := "failed" }) else kv)).lookup k =
      (l.lookup k).map (fun s => { s with status := "failed" }) :=
  lookup_map_update k (fun s => { s with status := "failed" }) l

/-- `lookup_map_update` specialised to `StopStream`'s constant rewrite. -/
theorem lookup_const_update (l : List (String × Stream)) (k : String) (v : Stream) :
    (l.map (fun kv => if kv.1 = k then (kv.1, v) else kv)).lookup k =
      (l.lookup k).map (fun _ => v) :=
  lookup_map_update k (fun _ => v) l

end StreamMgr

/-- C3 (amended): the probe does not run synchronously during start — the
`LiveSession` is inserted and `StartStream` returns success first; the
probe then runs inside the asynchronous `ProcessStream`, and when any
probe step fails, `ProcessStream` aborts with an error before any
database write (so no archive row is written), but the session remains
in the live set with status `failed` rather than being removed. -/
theorem C3_async_probe_failure (w : Protocol.World) (e : String)
    (hprobe : Protocol.probeResult w = .error e)
    (sm : StreamMgr.StreamManager) (db : Storage.DBState)
    (hlsDir rtspURL streamID streamName : String)
    (hfresh : sm.streams.lookup streamID = none) :
    (StreamMgr.StartStreamRun sm db w hlsDir true rtspURL streamID streamName).startResult =
      .ok () ∧
    (∃ e2, (StreamMgr.StartStreamRun sm db w hlsDir true rtspURL streamID streamName).procResult =
      some (.error e2)) ∧
    (StreamMgr.StartStreamRun sm db w hlsDir true rtspURL streamID streamName).db = db ∧
    ((StreamMgr.StartStreamRun sm db w hlsDir true rtspURL streamID
        streamName).mgr.streams.lookup streamID).map StreamMgr.Stream.status =
      some "failed" := by
  have hstart : StreamMgr.StartStream sm hlsDir true rtspURL streamID streamName w.now =
      .ok ⟨sm.streams ++ [(streamID,
        { id := streamID, streamName := streamName, rtspURL := rtspURL,
          hlsPath := hlsDir ++ "/" ++ streamID ++ "/index.m3u8",
          startedAt := w.now, status := "running", cancelled := false })]⟩ := by
    simp [StreamMgr.StartStream, hfresh]
  obtain ⟨e2, hps⟩ := Protocol.ProcessStream_probe_fail w e hprobe streamID streamName
    (hlsDir ++ "/" ++ streamID ++ "/index.m3u8") db
  simp only [StreamMgr.StartStreamRun, hstart, hps]
  refine ⟨by trivial, ⟨e2, by trivial⟩, by trivial, ?_⟩
  simp only [StreamMgr.processCompletion]
  rw [StreamMgr.lookup_failed_update,
    StreamMgr.lookup_append_fresh streamID _ sm.streams hfresh]
  rfl

/-- Counterexample to C3 as stated: with DNS resolution failing, the
start request still returns success and a `LiveSession` for the id is
still in the live set afterwards (status `failed`), although the claim
says start aborts and no `LiveSession` exists. -/
theorem C3_counterexample :
    (StreamMgr.StartStreamRun ⟨[]⟩ Storage.emptyDB
        ⟨some ("rtsp", "cam.local"), false, true, true, some ⟨true, false⟩, true, true,
          none, 10, [[0]], 100⟩
        "hls" true "rtsp://cam.local/live" "u1_camA_20260101000000" "camA").startResult =
      .ok () ∧
    ((StreamMgr.StartStreamRun ⟨[]⟩ Storage.emptyDB
        ⟨some ("rtsp", "cam.local"), false, true, true, some ⟨true, false⟩, true, true,
          none, 10, [[0]], 100⟩
        "hls" true "rtsp://cam.local/live" "u1_camA_20260101000000" "camA").mgr.streams.lookup
      "u1_camA_20260101000000").isSome = true :=
  ⟨by decide, by decide⟩

namespace Storage

/-- Existential form: the metadata upsert with a healthy driver succeeds
and preserves the archive table. -/
theorem SaveStreamMetadata_ok_ex (db : DBState) (m : Database.StreamMetadata) :
    ∃ d, SaveStreamMetadata true db m = .ok d ∧ d.archive = db.archive := by
  cases h : SaveStreamMetadata true db m with
  | error e => exact absurd h (SaveStreamMetadata_not_error db m e)
  | ok d => exact ⟨d, rfl, SaveStreamMetadata_ok_archive db m d h⟩

end Storage

namespace Protocol

/-- When the probe succeeds but the ffmpeg recording stage fails (with a
healthy database), `ProcessStream` returns the recording error and its
database writes leave the archive table untouched: no archive row is
written for the failed session. -/
theorem ProcessStream_record_fail (w : World) (e : String)
    (hval : validateRTSPURL w = .ok ()) (hreach : checkRTSPStream w = .ok ())
    (info : StreamInfo) (hinfo : checkStreamInfo w = .ok info)
    (hping : w.pingOk = true) (hdb : w.dbOk = true) (hrec : w.recordErr = some e)
    (streamID streamName hlsPath : String) (db : Storage.DBState) :
    (ProcessStream w streamID streamName hlsPath db).1 =
      .error ("failed to record video: " ++ e) ∧
    (ProcessStream w streamID streamName hlsPath db).2.archive = db.archive := by
  unfold ProcessStream
  simp only [hval, hreach, hinfo, hping, hdb, hrec, Bool.not_true, Bool.false_eq_true,
    if_false]
  split
  case _ e1 heq => exact absurd heq (Storage.SaveStreamMetadata_not_error db _ e1)
  case _ db1 heq1 =>
    split
    case _ e2 heq2 => exact absurd heq2 (Storage.SaveProcessingLog_not_error db1 _ e2)
    case _ db2 heq2 =>
      split
      case _ e3 heq3 => exact absurd heq3 (Storage.UpdateStreamMetadata_not_error db2 _ e3)
      case _ db3 heq3 =>
        refine ⟨rfl, ?_⟩
        rw [Storage.UpdateStreamMetadata_ok_archive db2 _ db3 heq3,
          Storage.SaveProcessingLog_ok_archive db1 _ db2 heq2,
          Storage.SaveStreamMetadata_ok_archive db _ db1 heq1]

end Protocol

/-- C4 (amended): when the transcoder child fails — `ProcessStream`
returns the recording error — the session's status becomes `failed`, but
no archive row is written for it and the session is not removed from the
live set; the completed-or-failed-implies-archived invariant does not
hold on this path (archive rows are written only by the success path, by
`StopStream` and by `Shutdown`). -/
theorem C4_transcoder_failure (w : Protocol.World) (e : String)
    (hprobe : Protocol.probeResult w = .ok ())
    (hping : w.pingOk = true) (hdb : w.dbOk = true) (hrec : w.recordErr = some e)
    (sm : StreamMgr.StreamManager) (db : Storage.DBState)
    (hlsDir rtspURL streamID streamName : String)
    (hfresh : sm.streams.lookup streamID = none) :
    (StreamMgr.StartStreamRun sm db w hlsDir true rtspURL streamID streamName).procResult =
      some (.error ("failed to record video: " ++ e)) ∧
    ((StreamMgr.StartStreamRun sm db w hlsDir true rtspURL streamID
        streamName).mgr.streams.lookup streamID).map StreamMgr.Stream.status =
      some "failed" ∧
    (StreamMgr.StartStreamRun sm db w hlsDir true rtspURL streamID
        streamName).db.archive = db.archive := by
  obtain ⟨hval, hreach, info, hinfo⟩ := Protocol.probeResult_ok_parts w hprobe
  have hrf := Protocol.ProcessStream_record_fail w e hval hreach info hinfo hping hdb hrec
    streamID streamName (hlsDir ++ "/" ++ streamID ++ "/index.m3u8") db
  have hstart : StreamMgr.StartStream sm hlsDir true rtspURL streamID streamName w.now =
      .ok ⟨sm.streams ++ [(streamID,
        { id := streamID, streamName := streamName, rtspURL := rtspURL,
          hlsPath := hlsDir ++ "/" ++ streamID ++ "/index.m3u8",
          startedAt := w.now, status := "running", cancelled := false })]⟩ := by
    simp [StreamMgr.StartStream, hfresh]
  cases hP : Protocol.ProcessStream w streamID streamName
      (hlsDir ++ "/" ++ streamID ++ "/index.m3u8") db with
  | mk res d2 =>
    rw [hP] at hrf
    obtain ⟨hres, harch⟩ := hrf
    subst hres
    simp only [StreamMgr.StartStreamRun, hstart, hP]
    refine ⟨by trivial, ?_, ?_⟩
    · simp only [StreamMgr.processCompletion]
      rw [StreamMgr.lookup_failed_update,
        StreamMgr.lookup_append_fresh streamID _ sm.streams hfresh]
      rfl
    · exact harch

/-- Counterexample to C4 as stated: with the probe succeeding and the
recording stage failing, the eventual state has the session marked
`failed` yet the archive table still empty — no archive row was written
for the failed session. -/
theorem C4_counterexample :
    (StreamMgr.StartStreamRun ⟨[]⟩ Storage.emptyDB
        ⟨some ("rtsp", "cam.local"), true, true, true, some ⟨true, false⟩, true, true,
          some "exit status 1", 0, [], 100⟩
        "hls" true "rtsp://cam.local/live" "u1_camA_20260101000001" "camA").db.archive = [] ∧
    ((StreamMgr.StartStreamRun ⟨[]⟩ Storage.emptyDB
        ⟨some ("rtsp", "cam.local"), true, true, true, some ⟨true, false⟩, true, true,
          some "exit status 1", 0, [], 100⟩
        "hls" true "rtsp://cam.local/live" "u1_camA_20260101000001"
        "camA").mgr.streams.lookup "u1_camA_20260101000001").map StreamMgr.Stream.status =
      some "failed" :=
  ⟨by decide, by decide⟩

/-- C2 evaluated at the failing input: two start requests for the same
stream name `camB` with distinct request uuids both generate distinct
session ids (`StartStreamHandler` prefixes a fresh uuid), so the
duplicate check — keyed on the session id, not the name — passes twice:
both `StartStream` calls succeed and two live sessions named `camB`
coexist, although the claim requires the second start to be rejected and
at most one `LiveSession` with the name ever to exist. -/
theorem C2_duplicate_name_not_rejected :
    (match StreamMgr.StartStream ⟨[]⟩ "hls" true "rtsp://cam.local/live"
        (Api.startStreamHandlerID "u1" "camB" "20260101000000") "camB" 0 with
     | .error _ => none
     | .ok sm1 =>
       match StreamMgr.StartStream sm1 "hls" true "rtsp://cam.local/live"
           (Api.startStreamHandlerID "u2" "camB" "20260101000001") "camB" 1 with
       | .error _ => none
       | .ok sm2 =>
         some ((sm2.streams.filter (fun kv => kv.2.streamName == "camB")).length)) =
      some 2 := by
  decide

/-- The archived playlist of spec scenario S4 — ten two-second segments
with the standard headers and end marker — for session id `u_camC_1`. -/
def demoArchivePlaylist : List String :=
  ["#EXTM3U", "#EXT-X-VERSION:3", "#EXT-X-TARGETDURATION:2", "#EXT-X-MEDIA-SEQUENCE:0"] ++
  ((List.range 10).map
    (fun i => ["#EXTINF:2.000000,", "u_camC_1_segment_" ++ Api.pad3 i ++ ".ts"])).flatten ++
  ["#EXT-X-ENDLIST"]

set_option maxRecDepth 8000 in
/-- C5 evaluated at the failing input: seeking to `time=6` in the
ten-segment archived playlist does emit `..._segment_003.ts` as the
first segment line, but the rewrite loop prefixes a generated `#EXTINF`
line to every line from the target onward — including the source
`#EXTINF` lines and `#EXT-X-ENDLIST` — so the output carries 20
`#EXTINF`-prefixed lines, not the 7 (one per remaining segment) the
claim requires. -/
theorem C5_seek_rewrite_malformed :
    (match Api.archiveSeekRewrite "u_camC_1" demoArchivePlaylist true 6 with
     | .ok lines => some (Api.extinfCount lines, Api.firstSegmentLine lines)
     | .notFound _ => none) = some (20, some "u_camC_1_segment_003.ts") := by
  decide

/-- C10: `StopStream` removes the session from the live set only after
the archive insert succeeds.  When the insert fails, the call returns an
error, the database is unchanged, and the session is still present with
its cancellation already triggered and its status already `completed`;
a later stop for the same session finds it again, retries the archive
write, succeeds, removes the session and leaves an archive row. -/
theorem C10_stop_retries_archive (sm : StreamMgr.StreamManager) (db : Storage.DBState)
    (id : String) (st : StreamMgr.Stream) (now1 now2 : Nat)
    (hlook : sm.streams.lookup id = some st) :
    (∃ e, (StreamMgr.StopStream sm false id now1 db).1 = Except.error e) ∧
    (StreamMgr.StopStream sm false id now1 db).2.1.streams.lookup id =
      some { st with cancelled := true, status := "completed" } ∧
    (StreamMgr.StopStream sm false id now1 db).2.2 = db ∧
    (StreamMgr.StopStream (StreamMgr.StopStream sm false id now1 db).2.1
      true id now2 db).1 = Except.ok () ∧
    (StreamMgr.StopStream (StreamMgr.StopStream sm false id now1 db).2.1
      true id now2 db).2.1.streams.lookup id = none ∧
    0 < Storage.countById
      (StreamMgr.StopStream (StreamMgr.StopStream sm false id now1 db).2.1
        true id now2 db).2.2 id := by
  have harch1 : ∀ a : Database.Archive, Storage.ArchiveStream false db a =
      .error "failed to archive stream" := fun a => rfl
  have hstop1 : StreamMgr.StopStream sm false id now1 db =
      (.error ("failed to save archive entry: " ++ "failed to archive stream"),
       ⟨sm.streams.map (fun kv => if kv.1 = id then
          (kv.1, { st with cancelled := true, status := "completed" }) else kv)⟩, db) := by
    simp only [StreamMgr.StopStream, hlook, harch1]
  have hlook1 : (StreamMgr.StopStream sm false id now1 db).2.1.streams.lookup id =
      some { st with cancelled := true, status := "completed" } := by
    rw [hstop1]
    show (sm.streams.map (fun kv => if kv.1 = id then
        (kv.1, { st with cancelled := true, status := "completed" }) else kv)).lookup id = _
    rw [StreamMgr.lookup_const_update, hlook]
    rfl
  have hrow : ∃ db2, Storage.ArchiveStream true db
      { id := 0, streamID := id, streamName := st.streamName, status := "completed",
        duration := now2 - st.startedAt, hlsPlaylistPath := st.hlsPath,
        archivedAt := now2 } = .ok db2 ∧ 0 < Storage.countById db2 id := by
    by_cases hdup : 0 < Storage.countById db id
    · exact ⟨db, Storage.ArchiveStream_dup db _ hdup, hdup⟩
    · have h0 : Storage.countById db id = 0 := by omega
      obtain ⟨db2, hins, hcnt⟩ := Storage.ArchiveStream_insert_ex db
        { id := 0, streamID := id, streamName := st.streamName, status := "completed",
          duration := now2 - st.startedAt, hlsPlaylistPath := st.hlsPath,
          archivedAt := now2 } h0
      have hcnt2 : Storage.countById db2 id = 1 := hcnt
      exact ⟨db2, hins, by omega⟩
  obtain ⟨db2, hins, hpos⟩ := hrow
  have hlook1x : (sm.streams.map (fun kv => if kv.1 = id then
      (kv.1, { st with cancelled := true, status := "completed" }) else kv)).lookup id =
      some { st with cancelled := true, status := "completed" } := by
    rw [StreamMgr.lookup_const_update, hlook]
    rfl
  refine ⟨⟨_, by rw [hstop1]⟩, hlook1, by rw [hstop1], ?_, ?_, ?_⟩
  · rw [hstop1]
    simp only [StreamMgr.StopStream, hlook1x, hins]
  · rw [hstop1]
    simp only [StreamMgr.StopStream, hlook1x, hins]
    exact StreamMgr.lookup_filter_ne id _
  · rw [hstop1]
    simp only [StreamMgr.StopStream, hlook1x, hins]
    exact hpos

/-- World for the C3 witness: the reachability probe fails. -/
def c3WitWorld : Protocol.World :=
  ⟨some ("rtsp", "cam.local"), true, false, true, some ⟨true, false⟩, true, true,
    none, 10, [[0]], 100⟩

/-- Witness for C3 at a concrete world whose reachability test fails. -/
theorem C3_async_probe_failure_witness :
    (Protocol.probeResult c3WitWorld = .error "failed to connect to RTSP stream" ∧
     (⟨[]⟩ : StreamMgr.StreamManager).streams.lookup "u1_camA_1" = none) ∧
    ((StreamMgr.StartStreamRun ⟨[]⟩ Storage.emptyDB c3WitWorld "hls" true
        "rtsp://cam.local/live" "u1_camA_1" "camA").startResult = .ok () ∧
     (∃ e2, (StreamMgr.StartStreamRun ⟨[]⟩ Storage.emptyDB c3WitWorld "hls" true
        "rtsp://cam.local/live" "u1_camA_1" "camA").procResult = some (.error e2)) ∧
     (StreamMgr.StartStreamRun ⟨[]⟩ Storage.emptyDB c3WitWorld "hls" true
        "rtsp://cam.local/live" "u1_camA_1" "camA").db = Storage.emptyDB ∧
     ((StreamMgr.StartStreamRun ⟨[]⟩ Storage.emptyDB c3WitWorld "hls" true
        "rtsp://cam.local/live" "u1_camA_1" "camA").mgr.streams.lookup
       "u1_camA_1").map StreamMgr.Stream.status = some "failed") :=
  ⟨⟨by decide, rfl⟩,
   C3_async_probe_failure c3WitWorld "failed to connect to RTSP stream" (by decide)
     ⟨[]⟩ Storage.emptyDB "hls" "rtsp://cam.local/live" "u1_camA_1" "camA" rfl⟩

/-- World for the C4 witness: the probe succeeds, the recording fails. -/
def c4WitWorld : Protocol.World :=
  ⟨some ("rtsp", "cam.local"), true, true, true, some ⟨true, false⟩, true, true,
    some "boom", 0, [], 100⟩

/-- Witness for C4 at a concrete world whose recording stage fails. -/
theorem C4_transcoder_failure_witness :
    (Protocol.probeResult c4WitWorld = .ok () ∧ c4WitWorld.pingOk = true ∧
     c4WitWorld.dbOk = true ∧ c4WitWorld.recordErr = some "boom" ∧
     (⟨[]⟩ : StreamMgr.StreamManager).streams.lookup "u1_camA_2" = none) ∧
    ((StreamMgr.StartStreamRun ⟨[]⟩ Storage.emptyDB c4WitWorld "hls" true
        "rtsp://cam.local/live" "u1_camA_2" "camA").procResult =
      some (.error ("failed to record video: " ++ "boom")) ∧
     ((StreamMgr.StartStreamRun ⟨[]⟩ Storage.emptyDB c4WitWorld "hls" true
        "rtsp://cam.local/live" "u1_camA_2" "camA").mgr.streams.lookup
       "u1_camA_2").map StreamMgr.Stream.status = some "failed" ∧
     (StreamMgr.StartStreamRun ⟨[]⟩ Storage.emptyDB c4WitWorld "hls" true
        "rtsp://cam.local/live" "u1_camA_2" "camA").db.archive = Storage.emptyDB.archive) :=
  ⟨⟨by decide, rfl, rfl, rfl, rfl⟩,
   C4_transcoder_failure c4WitWorld "boom" (by decide) rfl rfl rfl
     ⟨[]⟩ Storage.emptyDB "hls" "rtsp://cam.local/live" "u1_camA_2" "camA" rfl⟩

/-- Manager and stream for the C10 witness. -/
def c10WitStream : StreamMgr.Stream :=
  ⟨"id1", "camA", "rtsp://cam.local/live", "hls/id1/index.m3u8", 50, "running", false⟩

/-- Witness for C10: one running session, a failing then a succeeding
archive insert. -/
theorem C10_stop_retries_archive_witness :
    ((⟨[("id1", c10WitStream)]⟩ : StreamMgr.StreamManager).streams.lookup "id1" =
      some c10WitStream) ∧
    ((∃ e, (StreamMgr.StopStream ⟨[("id1", c10WitStream)]⟩ false "id1" 60
        Storage.emptyDB).1 = Except.error e) ∧
     (StreamMgr.StopStream ⟨[("id1", c10WitStream)]⟩ false "id1" 60
        Storage.emptyDB).2.1.streams.lookup "id1" =
       some { c10WitStream with cancelled := true, status := "completed" } ∧
     (StreamMgr.StopStream ⟨[("id1", c10WitStream)]⟩ false "id1" 60
        Storage.emptyDB).2.2 = Storage.emptyDB ∧
     (StreamMgr.StopStream (StreamMgr.StopStream ⟨[("id1", c10WitStream)]⟩ false "id1" 60
        Storage.emptyDB).2.1 true "id1" 70 Storage.emptyDB).1 = Except.ok () ∧
     (StreamMgr.StopStream (StreamMgr.StopStream ⟨[("id1", c10WitStream)]⟩ false "id1" 60
        Storage.emptyDB).2.1 true "id1" 70 Storage.emptyDB).2.1.streams.lookup "id1" =
       none ∧
     0 < Storage.countById
       (StreamMgr.StopStream (StreamMgr.StopStream ⟨[("id1", c10WitStream)]⟩ false "id1" 60
          Storage.emptyDB).2.1 true "id1" 70 Storage.emptyDB).2.2 "id1") :=
  ⟨by decide,
   C10_stop_retries_archive ⟨[("id1", c10WitStream)]⟩ Storage.emptyDB "id1" c10WitStream
     60 70 (by decide)⟩
